import Mathlib

/-!
# Verification of the craftea Structural Geometry & Validation Engine

Shallow embedding of the engine of the `craftea` repository:

* the geometric kernel (`checkLineIntersection` from
  `src/lib/utils/intersectionDetector.ts` and `lineLineIntersection` from the
  `fixIntersections` tool),
* the intersection resolver (`findIntersections`, `generateNodeName`,
  `autoFixIntersections`, `executeFixIntersections`),
* the structural validator (`executeValidateStructure`),
* the failure-loop circuit breaker (the `validationHistory` logic inside
  `executeValidateStructure`),
* the `createLine` tool (`executeCreateLine`).

Modelling conventions:

* JavaScript numbers are modelled as exact rationals (`ℚ`); the numeric
  literals of the source (`0.1`, `0.005`, `0.0001`, `0.5`) are taken at their
  decimal value, as the specification does.
* `Math.sqrt d > c` (with `d, c ≥ 0`) is embedded as the equivalent `d > c^2`
  on the squared quantity, keeping all definitions executable; theorems that
  speak about the Euclidean distance itself use `Real.sqrt` and are reduced to
  the squared form by monotonicity of the square root.
* JavaScript `Map`s are modelled as association lists (`JMap`) with the
  `Map.set`/`Map.delete`/insertion-order semantics of the language.
* The recursive ground-reachability traversal and the `while (changed)`
  relaxation loop of the validator terminate in the source because the
  visited/grounded sets only grow; they are embedded with an explicit fuel
  argument large enough for the loop to run to completion.
* Free-text fields of issue objects (`description`, `suggestedFix`) and
  `console.log` calls are pure formatting/logging and are not modelled; the
  discriminating fields (`type`, `severity`, `affectedNodes`, `affectedLines`)
  are kept.
-/

/-! ## Decimal representation of numbers (JS template strings `${n}`) -/

/-- The decimal digit characters used by JavaScript number-to-string
conversion on small naturals. -/
def digitCh (d : Nat) : Char :=
  match d with
  | 0 => '0' | 1 => '1' | 2 => '2' | 3 => '3' | 4 => '4'
  | 5 => '5' | 6 => '6' | 7 => '7' | 8 => '8' | 9 => '9'
  | _ => '*'

/-- Decimal digits of `n`, most significant first; `fuel`-bounded version of
the usual division/modulus recursion (any `fuel ≥ n` computes it fully). -/
def natDigitsAux : Nat → Nat → List Char
  | 0, n => [digitCh (n % 10)]
  | fuel + 1, n =>
    if n < 10 then [digitCh n]
    else natDigitsAux fuel (n / 10) ++ [digitCh (n % 10)]

/-- The decimal string of a natural number, as produced by a JS template
string `${n}`. -/
def strOfNat (n : Nat) : String :=
  String.mk (natDigitsAux n n)

/-- Read a digit character back. -/
def chVal (c : Char) : Nat :=
  match c with
  | '0' => 0 | '1' => 1 | '2' => 2 | '3' => 3 | '4' => 4
  | '5' => 5 | '6' => 6 | '7' => 7 | '8' => 8 | '9' => 9
  | _ => 99

theorem chVal_digitCh {d : Nat} (h : d < 10) : chVal (digitCh d) = d := by
  interval_cases d <;> rfl

/-- Fold a digit list back to the natural number it denotes. -/
def digitsVal (l : List Char) : Nat :=
  l.foldl (fun acc c => acc * 10 + chVal c) 0

theorem digitsVal_append (l₁ l₂ : List Char) :
    digitsVal (l₁ ++ l₂) = (l₂.foldl (fun acc c => acc * 10 + chVal c) (digitsVal l₁)) := by
  simp [digitsVal, List.foldl_append]

theorem digitsVal_natDigitsAux : ∀ fuel n, n ≤ fuel → digitsVal (natDigitsAux fuel n) = n := by
  intro fuel
  induction fuel with
  | zero =>
    intro n hn
    have : n = 0 := Nat.le_zero.mp hn
    subst this
    rfl
  | succ f ih =>
    intro n hn
    by_cases h10 : n < 10
    · simp [natDigitsAux, h10, digitsVal, chVal_digitCh h10]
    · have hdiv : n / 10 ≤ f := by
        have h1 := Nat.div_lt_self (Nat.pos_of_ne_zero (by omega : n ≠ 0))
          (by norm_num : 1 < 10)
        omega
      have hmod : n % 10 < 10 := Nat.mod_lt _ (by omega)
      simp only [natDigitsAux, h10, if_false, digitsVal_append, List.foldl_cons,
        List.foldl_nil, ih _ hdiv, chVal_digitCh hmod]
      omega

theorem strOfNat_injective : Function.Injective strOfNat := by
  intro a b h
  have ha : digitsVal (natDigitsAux a a) = a := digitsVal_natDigitsAux a a le_rfl
  have hb : digitsVal (natDigitsAux b b) = b := digitsVal_natDigitsAux b b le_rfl
  have hdata : natDigitsAux a a = natDigitsAux b b := by
    have := congrArg String.data h
    simpa [strOfNat] using this
  rw [← ha, ← hb, hdata]

/-- A prefixed decimal name `p + String(k)`, such as `"N5"` or `"L3"`. -/
def mkName (p : String) (k : Nat) : String :=
  p ++ strOfNat k

theorem mkName_injective (p : String) : Function.Injective (mkName p) := by
  intro a b h
  apply strOfNat_injective
  have hdata : (mkName p a).data = (mkName p b).data := congrArg String.data h
  simp only [mkName, String.data_append] at hdata
  have hd : (strOfNat a).data = (strOfNat b).data := List.append_cancel_left hdata
  exact String.ext hd

/-! ## JavaScript `Map` model

Association list with the key/insertion-order semantics of a JS `Map`:
`set` overwrites in place for an existing key and appends otherwise,
`delete` removes the entry, iteration follows the list order. -/

/-- A JS `Map<string, α>` as an insertion-ordered association list. -/
abbrev JMap (α : Type) : Type := List (String × α)

namespace JMap

variable {α : Type}

/-- The JS `Map.prototype.has` test. -/
def has (m : JMap α) (k : String) : Bool :=
  (List.any m (fun p => p.1 = k))

/-- The JS `Map.prototype.get` lookup (first entry, as in a key-unique map). -/
def get? (m : JMap α) (k : String) : Option α :=
  (List.find? (fun p => p.1 = k) m).map Prod.snd

/-- The JS `Map.prototype.set` update: replace in place if the key exists, else append. -/
def set (m : JMap α) (k : String) (v : α) : JMap α :=
  if has m k then List.map (fun p => if p.1 = k then (k, v) else p) m
  else m ++ [(k, v)]

/-- The JS `Map.prototype.delete` removal. -/
def delete (m : JMap α) (k : String) : JMap α :=
  List.filter (fun p => ¬ p.1 = k) m

/-- The JS `Map.prototype.size` count (the maps built by the code are key-unique, so the
list length is the number of distinct keys). -/
def size (m : JMap α) : Nat :=
  List.length m

/-- The key list, in iteration order. -/
def keys (m : JMap α) : List String :=
  List.map Prod.fst m

theorem has_cons_iff (p : String × α) (t : JMap α) (k : String) :
    has (p :: t) k = true ↔ p.1 = k ∨ has t k = true := by
  simp only [has, List.any_cons, Bool.or_eq_true, decide_eq_true_eq]

theorem find?_replace (m : JMap α) (k : String) (v : α) (h : has m k = true) :
    List.find? (fun p => p.1 = k) (List.map (fun p => if p.1 = k then (k, v) else p) m)
      = some (k, v) := by
  induction m with
  | nil => simp [has] at h
  | cons p t ih =>
    by_cases hp : p.1 = k
    · simp [List.find?_cons, hp]
    · have ht : has t k = true := by
        rcases (has_cons_iff p t k).mp h with h1 | h2
        · exact absurd h1 hp
        · exact h2
      simp only [List.map_cons, if_neg hp]
      rw [List.find?_cons_of_neg _ (by simpa using hp)]
      exact ih ht

theorem find?_append_fresh (m : JMap α) (k : String) (v : α) (h : ¬ has m k = true) :
    List.find? (fun p => p.1 = k) (m ++ [(k, v)]) = some (k, v) := by
  induction m with
  | nil => simp
  | cons p t ih =>
    have hp : ¬ p.1 = k := fun hk => h ((has_cons_iff p t k).mpr (Or.inl hk))
    have ht : ¬ has t k = true := fun hk => h ((has_cons_iff p t k).mpr (Or.inr hk))
    simp only [List.cons_append]
    rw [List.find?_cons_of_neg _ (by simpa using hp)]
    exact ih ht

theorem get?_set_self (m : JMap α) (k : String) (v : α) :
    get? (set m k v) k = some v := by
  by_cases h : has m k = true
  · rw [set, if_pos h]
    simp only [get?, find?_replace m k v h, Option.map_some']
  · rw [set, if_neg h]
    simp only [get?, find?_append_fresh m k v h, Option.map_some']

theorem size_set_of_not_has (m : JMap α) (k : String) (v : α) (h : ¬ has m k = true) :
    size (set m k v) = size m + 1 := by
  simp [set, h, size]

end JMap

/-! ## Spatial model (`src/lib/core/Node3D.ts` and the tool state)

`Node3D`/`Line3D` mirror the classes used by the intersection detector
(a line holds its endpoint nodes); `SLine`/`ToolState` mirror the plain
state handled by the AI tools (`state.nodes`, `state.lines` with string
node references). The optional `id` field of the classes is persistence
glue and not modelled. -/

structure Node3D where
  name : String
  x : ℚ
  y : ℚ
  z : ℚ
deriving DecidableEq

structure Line3D where
  name : String
  node1 : Node3D
  node2 : Node3D
deriving DecidableEq

/-- A line of the tool state: `{name, node1, node2}` with node names. -/
structure SLine where
  name : String
  node1 : String
  node2 : String
deriving DecidableEq

/-- The tool state `{ nodes, lines }` seen by the craftea AI tools. -/
structure ToolState where
  nodes : List Node3D
  lines : List SLine
deriving DecidableEq

/-- A plain coordinate triple `{x, y, z}`. -/
structure Vec3 where
  x : ℚ
  y : ℚ
  z : ℚ
deriving DecidableEq

/-! ## Geometric kernel -/

/-- Rounding to 3 decimal places, `Math.round(q * 1000) / 1000`
(JS `Math.round` rounds half-way cases toward `+∞`). -/
def round3 (q : ℚ) : ℚ :=
  (⌊q * 1000 + 1 / 2⌋ : ℚ) / 1000

/-- Direction vector / difference of two points. -/
def vsub (a b : Vec3) : Vec3 :=
  ⟨a.x - b.x, a.y - b.y, a.z - b.z⟩

/-- Dot product. -/
def vdot (a b : Vec3) : ℚ :=
  a.x * b.x + a.y * b.y + a.z * b.z

/-- The point `p1 + t * d1` on a parametric line. -/
def vadd (p : Vec3) (t : ℚ) (d : Vec3) : Vec3 :=
  ⟨p.x + t * d.x, p.y + t * d.y, p.z + t * d.z⟩

/-- Squared Euclidean distance between two points (the source compares
`Math.sqrt` of this against `0.5`; comparisons are carried out on the
squared value, which is equivalent since both sides are nonnegative). -/
def distSq (a b : Vec3) : ℚ :=
  (a.x - b.x) ^ 2 + (a.y - b.y) ^ 2 + (a.z - b.z) ^ 2

/-- The determinant `denom = a*c - b*b` of the closest-approach 2×2 system for the two
segments `p1→p2` and `q1→q2`. -/
def denomOf (p1 p2 q1 q2 : Vec3) : ℚ :=
  let d1 := vsub p2 p1
  let d2 := vsub q2 q1
  (vdot d1 d1) * (vdot d2 d2) - (vdot d1 d2) * (vdot d1 d2)

/-- The parameter `t = (b*e - c*d) / denom` along segment 1. -/
def tOf (p1 p2 q1 q2 : Vec3) : ℚ :=
  let d1 := vsub p2 p1
  let d2 := vsub q2 q1
  let w := vsub p1 q1
  ((vdot d1 d2) * (vdot d2 w) - (vdot d2 d2) * (vdot d1 w)) / denomOf p1 p2 q1 q2

/-- The parameter `s = (a*e - b*d) / denom` along segment 2. -/
def sOf (p1 p2 q1 q2 : Vec3) : ℚ :=
  let d1 := vsub p2 p1
  let d2 := vsub q2 q1
  let w := vsub p1 q1
  ((vdot d1 d1) * (vdot d2 w) - (vdot d1 d2) * (vdot d1 w)) / denomOf p1 p2 q1 q2

/-- The coordinates of an endpoint node. -/
def Node3D.pos (n : Node3D) : Vec3 :=
  ⟨n.x, n.y, n.z⟩

/-- The function `checkLineIntersection` from `src/lib/utils/intersectionDetector.ts`:
closest approach of the two infinite lines, rejected when near-parallel
(`|denom| < 0.0001`), when `t`/`s` is within `0.005` of an endpoint, or when
the two closest points are more than `0.5` apart; otherwise the midpoint of
the two closest points, rounded to 3 decimals. The `try/catch` wrapper of
the source cannot fire in this arithmetic model (no exceptions). -/
def checkLineIntersection (line1 line2 : Line3D) : Option Vec3 :=
  let p1 := line1.node1.pos
  let p2 := line1.node2.pos
  let q1 := line2.node1.pos
  let q2 := line2.node2.pos
  let d1 := vsub p2 p1
  let d2 := vsub q2 q1
  let denom := denomOf p1 p2 q1 q2
  if |denom| < 1 / 10000 then none
  else
    let t := tOf p1 p2 q1 q2
    let s := sOf p1 p2 q1 q2
    if t < 1 / 200 ∨ t > 1 - 1 / 200 ∨ s < 1 / 200 ∨ s > 1 - 1 / 200 then none
    else
      let pAtT := vadd p1 t d1
      let qAtS := vadd q1 s d2
      if distSq pAtT qAtS > (1 / 2) ^ 2 then none
      else
        some ⟨round3 ((pAtT.x + qAtS.x) / 2),
              round3 ((pAtT.y + qAtS.y) / 2),
              round3 ((pAtT.z + qAtS.z) / 2)⟩

/-- The result `{x, y, z, t, s}` of `lineLineIntersection`. -/
structure LLResult where
  x : ℚ
  y : ℚ
  z : ℚ
  t : ℚ
  s : ℚ
deriving DecidableEq

/-- The function `lineLineIntersection` from the `fixIntersections` tool: same rejection
conditions as `checkLineIntersection`, but the returned point is the point on
line 1 at parameter `t` (not the midpoint) and is not rounded. The `debug`
logging parameter is not modelled. -/
def lineLineIntersection (p1 p2 q1 q2 : Vec3) : Option LLResult :=
  let d1 := vsub p2 p1
  let d2 := vsub q2 q1
  let denom := denomOf p1 p2 q1 q2
  if |denom| < 1 / 10000 then none
  else
    let t := tOf p1 p2 q1 q2
    let s := sOf p1 p2 q1 q2
    if t < 1 / 200 ∨ t > 1 - 1 / 200 ∨ s < 1 / 200 ∨ s > 1 - 1 / 200 then none
    else
      let inter := vadd p1 t d1
      let qAtS := vadd q1 s d2
      if distSq inter qAtS > (1 / 2) ^ 2 then none
      else some ⟨inter.x, inter.y, inter.z, t, s⟩

/-! ## Unique-name generation

Both `generateNodeName` (intersection detector) and the auto-naming loop of
`createLine` run `let counter := start; while (taken(`P${counter}`)) counter++`.
The loop is embedded with fuel; `keys.length + 1` probes always suffice (at
most `keys.length` candidate names can be taken), which the pigeonhole lemma
below makes precise. -/

/-- The `while (taken) counter++` naming loop: starting at `counter`, return
the first `mkName p counter` that is not in `keys`, probing at most `fuel`
candidates. -/
def genNameLoop (keys : List String) (p : String) : Nat → Nat → String
  | 0, counter => mkName p counter
  | fuel + 1, counter =>
    if mkName p counter ∈ keys then genNameLoop keys p fuel (counter + 1)
    else mkName p counter

/-- Pigeonhole: among `keys.length + 1` consecutive candidate names, one is
unused. -/
theorem exists_fresh_name (keys : List String) (p : String) (start : Nat) :
    ∃ j, j ≤ keys.length ∧ mkName p (start + j) ∉ keys := by
  by_contra hall
  push_neg at hall
  have hsub : ((List.range (keys.length + 1)).map (fun j => mkName p (start + j))) ⊆ keys := by
    intro x hx
    rcases List.mem_map.mp hx with ⟨j, hj, rfl⟩
    exact hall j (Nat.lt_succ_iff.mp (List.mem_range.mp hj))
  have hnd : ((List.range (keys.length + 1)).map (fun j => mkName p (start + j))).Nodup := by
    refine List.Nodup.map ?_ (List.nodup_range _)
    intro a b hab
    have := mkName_injective p hab
    omega
  have hle := (List.subperm_of_subset hnd hsub).length_le
  simp only [List.length_map, List.length_range] at hle
  omega

/-- Output characterisation of the naming loop: if some candidate within the
fuel budget is free, the loop returns the first free candidate at or after
`counter`. -/
theorem genNameLoop_spec (keys : List String) (p : String) :
    ∀ fuel counter, (∃ j, j < fuel ∧ mkName p (counter + j) ∉ keys) →
      ∃ k, genNameLoop keys p fuel counter = mkName p k ∧ counter ≤ k ∧
        mkName p k ∉ keys ∧ ∀ i, counter ≤ i → i < k → mkName p i ∈ keys := by
  intro fuel
  induction fuel with
  | zero =>
    intro counter h
    rcases h with ⟨j, hj, _⟩
    omega
  | succ f ih =>
    intro counter h
    by_cases hc : mkName p counter ∈ keys
    · have hnext : ∃ j, j < f ∧ mkName p (counter + 1 + j) ∉ keys := by
        rcases h with ⟨j, hj, hfree⟩
        cases j with
        | zero => exact absurd (by simpa using hc) (by simpa using hfree)
        | succ j' =>
          exact ⟨j', by omega, by
            have : counter + 1 + j' = counter + (j' + 1) := by omega
            rw [this]; exact hfree⟩
      rcases ih (counter + 1) hnext with ⟨k, hk, hge, hfree, hleast⟩
      refine ⟨k, ?_, by omega, hfree, ?_⟩
      · simpa [genNameLoop, hc] using hk
      · intro i hi1 hi2
        rcases Nat.eq_or_lt_of_le hi1 with rfl | hlt
        · exact hc
        · exact hleast i hlt hi2
    · exact ⟨counter, by simp [genNameLoop, hc], le_rfl, hc, fun i h1 h2 => by omega⟩

/-! ## Intersection resolver (`src/lib/utils/intersectionDetector.ts`) -/

/-- The object-level line stored by the detector, with the skip test of
`findIntersections`: the candidate and an existing line are not compared when
they share an endpoint node name. -/
def sharesNode (l1 l2 : Line3D) : Bool :=
  l1.node1.name = l2.node1.name ∨ l1.node1.name = l2.node2.name ∨
    l1.node2.name = l2.node1.name ∨ l1.node2.name = l2.node2.name

/-- The scan `findIntersections`: walk the existing lines in map order, skip those
sharing an endpoint with the candidate, and collect the positive results of
`checkLineIntersection`. -/
def findIntersections (newLine : Line3D) (existingLines : JMap Line3D) :
    List (Line3D × Vec3) :=
  existingLines.foldl
    (fun acc entry =>
      if sharesNode newLine entry.2 then acc
      else
        match checkLineIntersection newLine entry.2 with
        | some point => acc ++ [(entry.2, point)]
        | none => acc)
    []

/-- Auto-naming `generateNodeName`: `counter` starts at `existingNodes.size + 1` and is
incremented while `N${counter}` is taken. -/
def generateNodeName (existingNodes : JMap Node3D) : String :=
  genNameLoop (JMap.keys existingNodes) "N" (JMap.size existingNodes + 1)
    (JMap.size existingNodes + 1)

/-- The line-splitting part of one `autoFixIntersections` loop iteration:
split the current remnant held under the candidate's name, then split the
intersected existing line, both at the freshly created junction node. -/
def autoFixSplitLines (newLine : Line3D) (lines0 : JMap Line3D)
    (existingLine : Line3D) (newNode : Node3D) : JMap Line3D :=
  let lines :=
    match JMap.get? lines0 newLine.name with
    | some nl1 =>
      let splitA : Line3D := ⟨newLine.name ++ "a", nl1.node1, newNode⟩
      let splitB : Line3D := ⟨newLine.name ++ "b", newNode, nl1.node2⟩
      JMap.set (JMap.set (JMap.delete lines0 newLine.name) splitA.name splitA)
        splitB.name splitB
    | none => lines0
  match JMap.get? lines existingLine.name with
  | some exL =>
    let splitC : Line3D := ⟨existingLine.name ++ "a", exL.node1, newNode⟩
    let splitD : Line3D := ⟨existingLine.name ++ "b", newNode, exL.node2⟩
    JMap.set (JMap.set (JMap.delete lines existingLine.name) splitC.name splitC)
      splitD.name splitD
  | none => lines

/-- One iteration of the `autoFixIntersections` loop: create the junction
node (auto-named from the current node map) and split both lines. -/
def autoFixStep (newLine : Line3D) (st : JMap Node3D × JMap Line3D)
    (inter : Line3D × Vec3) : JMap Node3D × JMap Line3D :=
  let nodeName := generateNodeName st.1
  let newNode : Node3D := ⟨nodeName, inter.2.x, inter.2.y, inter.2.z⟩
  (JMap.set st.1 nodeName newNode, autoFixSplitLines newLine st.2 inter.1 newNode)

/-- The resolver `autoFixIntersections`: add the candidate line, then for each detected
intersection create a junction node and split both the candidate (or its
current remnant under the candidate's name) and the intersected existing
line. The `catch`-branch `return null` of the source is unreachable in this
arithmetic model, so the result is always `some`. -/
def autoFixIntersections (newLine : Line3D) (existingNodes : JMap Node3D)
    (existingLines : JMap Line3D) : Option (JMap Node3D × JMap Line3D) :=
  let intersections := findIntersections newLine existingLines
  if intersections.isEmpty then
    some (existingNodes, JMap.set existingLines newLine.name newLine)
  else
    some (intersections.foldl (autoFixStep newLine)
      (existingNodes, JMap.set existingLines newLine.name newLine))

/-! ## Rejection conditions of the geometric kernel (claim C3) -/

theorem distSq_nonneg (a b : Vec3) : 0 ≤ distSq a b := by
  unfold distSq
  positivity

/-- Comparing `Math.sqrt d > 0.5` is equivalent to `d > 0.5²` for `d ≥ 0`. -/
theorem sqrt_gt_half_iff (q : ℚ) (_hq : 0 ≤ q) :
    (1 / 2 : ℝ) < Real.sqrt (q : ℝ) ↔ ((1 / 2 : ℚ) ^ 2 < q) := by
  rw [Real.lt_sqrt (by norm_num)]
  constructor
  · intro h
    have : (((1 / 2 : ℚ) ^ 2 : ℚ) : ℝ) < (q : ℝ) := by push_cast; exact_mod_cast h
    exact_mod_cast this
  · intro h
    have : (((1 / 2 : ℚ) ^ 2 : ℚ) : ℝ) < (q : ℝ) := by exact_mod_cast h
    push_cast at this
    exact_mod_cast this

/-- The `NoIntersection` classification policy as the spec states it
(§4.1): near-parallel system, parameter within 0.5% of an endpoint, or
closest points further than 0.5 length units apart. Stated from the spec's
words for comparison with the code's branches. -/
def specNoIntersection (p1 p2 q1 q2 : Vec3) : Prop :=
  |denomOf p1 p2 q1 q2| < 1 / 10000 ∨
  tOf p1 p2 q1 q2 < 1 / 200 ∨ tOf p1 p2 q1 q2 > 1 - 1 / 200 ∨
  sOf p1 p2 q1 q2 < 1 / 200 ∨ sOf p1 p2 q1 q2 > 1 - 1 / 200 ∨
  (1 / 2 : ℝ) < Real.sqrt ((distSq (vadd p1 (tOf p1 p2 q1 q2) (vsub p2 p1))
    (vadd q1 (sOf p1 p2 q1 q2) (vsub q2 q1)) : ℚ))

theorem lineLineIntersection_none_iff (p1 p2 q1 q2 : Vec3) :
    lineLineIntersection p1 p2 q1 q2 = none ↔ specNoIntersection p1 p2 q1 q2 := by
  unfold lineLineIntersection specNoIntersection
  simp only []
  split_ifs with h1 h2 h3
  · exact iff_of_true rfl (Or.inl h1)
  · exact iff_of_true rfl (by tauto)
  · have hs := (sqrt_gt_half_iff _ (distSq_nonneg _ _)).mpr h3
    exact iff_of_true rfl (by tauto)
  · refine iff_of_false (by simp) fun hD => ?_
    have hs := fun h => h3 ((sqrt_gt_half_iff _ (distSq_nonneg _ _)).mp h)
    tauto

theorem checkLineIntersection_none_iff (line1 line2 : Line3D) :
    checkLineIntersection line1 line2 = none ↔
      specNoIntersection line1.node1.pos line1.node2.pos line2.node1.pos line2.node2.pos := by
  unfold checkLineIntersection specNoIntersection
  simp only []
  split_ifs with h1 h2 h3
  · exact iff_of_true rfl (Or.inl h1)
  · exact iff_of_true rfl (by tauto)
  · have hs := (sqrt_gt_half_iff _ (distSq_nonneg _ _)).mpr h3
    exact iff_of_true rfl (by tauto)
  · refine iff_of_false (by simp) fun hD => ?_
    have hs := fun h => h3 ((sqrt_gt_half_iff _ (distSq_nonneg _ _)).mp h)
    tauto

/-- Claim C3: both intersection tests return `NoIntersection` (null) exactly
when the 2×2 determinant is below `1e-4` in absolute value, when `t` or `s`
falls outside `[0.005, 0.995]`, or when the Euclidean distance between the
closest points on the two lines exceeds `0.5`; an intersection is reported
only when none of these conditions holds. -/
theorem claim_C3 (line1 line2 : Line3D) (p1 p2 q1 q2 : Vec3) :
    (checkLineIntersection line1 line2 = none ↔
      specNoIntersection line1.node1.pos line1.node2.pos line2.node1.pos line2.node2.pos) ∧
    (lineLineIntersection p1 p2 q1 q2 = none ↔ specNoIntersection p1 p2 q1 q2) :=
  ⟨checkLineIntersection_none_iff line1 line2, lineLineIntersection_none_iff p1 p2 q1 q2⟩

/-! ## Returned intersection point (claim C9) -/

/-- Claim C9 counterexample: for the segments `(0,0,0)–(2,0,0)` and
`(1,−1,0.2)–(1,1,0.2)` the closest points are `(1,0,0)` (at `t = 1/2` on
line 1) and `(1,0,0.2)` (at `s = 1/2` on line 2), `0.2` apart, so an
intersection is reported; `lineLineIntersection` returns the point on line 1,
`(1,0,0)`, whereas the midpoint of the two closest points rounded to 3
decimals has `z = 0.1` — the returned point is not the rounded midpoint. -/
theorem claim_C9_counterexample :
    lineLineIntersection ⟨0, 0, 0⟩ ⟨2, 0, 0⟩ ⟨1, -1, 1/5⟩ ⟨1, 1, 1/5⟩ =
      some ⟨1, 0, 0, 1/2, 1/2⟩ ∧
    round3 (((vadd ⟨0, 0, 0⟩ (1/2) (vsub ⟨2, 0, 0⟩ ⟨0, 0, 0⟩)).z +
             (vadd ⟨1, -1, 1/5⟩ (1/2) (vsub ⟨1, 1, 1/5⟩ ⟨1, -1, 1/5⟩)).z) / 2) = 1/10 ∧
    (0 : ℚ) ≠ 1/10 := by
  refine ⟨by with_unfolding_all rfl, by with_unfolding_all rfl, by norm_num⟩

/-- Claim C9 (amended): when `checkLineIntersection` reports an intersection
the returned point is the midpoint of the two closest points with each
coordinate rounded to 3 decimal places; `lineLineIntersection`, by contrast,
returns the unrounded point on line 1 at parameter `t` (together with `t`
and `s`). -/
theorem claim_C9_amended :
    (∀ (line1 line2 : Line3D) (p : Vec3), checkLineIntersection line1 line2 = some p →
      p = ⟨round3 (((vadd line1.node1.pos
              (tOf line1.node1.pos line1.node2.pos line2.node1.pos line2.node2.pos)
              (vsub line1.node2.pos line1.node1.pos)).x +
            (vadd line2.node1.pos
              (sOf line1.node1.pos line1.node2.pos line2.node1.pos line2.node2.pos)
              (vsub line2.node2.pos line2.node1.pos)).x) / 2),
           round3 (((vadd line1.node1.pos
              (tOf line1.node1.pos line1.node2.pos line2.node1.pos line2.node2.pos)
              (vsub line1.node2.pos line1.node1.pos)).y +
            (vadd line2.node1.pos
              (sOf line1.node1.pos line1.node2.pos line2.node1.pos line2.node2.pos)
              (vsub line2.node2.pos line2.node1.pos)).y) / 2),
           round3 (((vadd line1.node1.pos
              (tOf line1.node1.pos line1.node2.pos line2.node1.pos line2.node2.pos)
              (vsub line1.node2.pos line1.node1.pos)).z +
            (vadd line2.node1.pos
              (sOf line1.node1.pos line1.node2.pos line2.node1.pos line2.node2.pos)
              (vsub line2.node2.pos line2.node1.pos)).z) / 2)⟩) ∧
    (∀ (p1 p2 q1 q2 : Vec3) (r : LLResult), lineLineIntersection p1 p2 q1 q2 = some r →
      r = ⟨(vadd p1 (tOf p1 p2 q1 q2) (vsub p2 p1)).x,
           (vadd p1 (tOf p1 p2 q1 q2) (vsub p2 p1)).y,
           (vadd p1 (tOf p1 p2 q1 q2) (vsub p2 p1)).z,
           tOf p1 p2 q1 q2, sOf p1 p2 q1 q2⟩) := by
  constructor
  · intro line1 line2 p h
    simp only [checkLineIntersection] at h
    split_ifs at h
    exact (Option.some.injEq _ _ ▸ h).symm
  · intro p1 p2 q1 q2 r h
    simp only [lineLineIntersection] at h
    split_ifs at h
    exact (Option.some.injEq _ _ ▸ h).symm

/-- Witness for C9 (amended) at the crossing `(0,0,0)–(4,4,0)` ×
`(0,4,0)–(4,0,0)` (closest points coincide at `(2,2,0)`, `t = s = 1/2`):
both parts of the amended claim applied at a concrete reported
intersection. -/
theorem claim_C9_witness :
    ((⟨2, 2, 0⟩ : Vec3) = ⟨round3 ((2 + 2) / 2), round3 ((2 + 2) / 2), round3 ((0 + 0) / 2)⟩) ∧
    ((⟨2, 2, 0, 1/2, 1/2⟩ : LLResult) =
      ⟨0 + (1/2) * 4, 0 + (1/2) * 4, 0 + (1/2) * 0, 1/2, 1/2⟩) :=
  ⟨(claim_C9_amended.1 (Line3D.mk "L2" ⟨"A", 0, 0, 0⟩ ⟨"B", 4, 4, 0⟩)
      (Line3D.mk "L1" ⟨"C", 0, 4, 0⟩ ⟨"D", 4, 0, 0⟩) ⟨2, 2, 0⟩
      (by with_unfolding_all rfl)).trans (by with_unfolding_all rfl),
   (claim_C9_amended.2 ⟨0, 0, 0⟩ ⟨4, 4, 0⟩ ⟨0, 4, 0⟩ ⟨4, 0, 0⟩ ⟨2, 2, 0, 1/2, 1/2⟩
      (by with_unfolding_all rfl)).trans (by with_unfolding_all rfl)⟩

/-! ## Fail-soft resolution (claim C4) -/

/-- Claim C4: when intersection detection cannot resolve anything for the
candidate line (`findIntersections` returns no intersection, as it does for
numerically degenerate input — parallel or zero-length segments), the
resolver fails soft: the returned structure holds the candidate line
unmodified under its own name and the node map is untouched. (The `throw`
half of the claim is exception handling: `checkLineIntersection` catches
internally and returns null, `autoFixIntersections` catches and returns
null, and its caller `addLine` in `editorStore.ts` then also adds the line
unmodified; no exception can fire in this arithmetic model.) -/
theorem claim_C4 (newLine : Line3D) (nodes : JMap Node3D) (lines : JMap Line3D)
    (h : findIntersections newLine lines = []) :
    autoFixIntersections newLine nodes lines =
      some (nodes, JMap.set lines newLine.name newLine) ∧
    JMap.get? (JMap.set lines newLine.name newLine) newLine.name = some newLine := by
  constructor
  · simp [autoFixIntersections, h]
  · exact JMap.get?_set_self lines newLine.name newLine

/-- Witness for C4: a candidate parallel to the only existing line (the 2×2
system is degenerate, `denom = 0`), so detection cannot resolve and the line
is added unmodified. -/
theorem claim_C4_witness :
    (autoFixIntersections (Line3D.mk "L2" ⟨"A", 0, 0, 0⟩ ⟨"B", 1, 0, 0⟩)
        [("A", ⟨"A", 0, 0, 0⟩), ("B", ⟨"B", 1, 0, 0⟩)]
        [("L1", Line3D.mk "L1" ⟨"C", 0, 1, 0⟩ ⟨"D", 1, 1, 0⟩)] =
      some ([("A", ⟨"A", 0, 0, 0⟩), ("B", ⟨"B", 1, 0, 0⟩)],
        JMap.set [("L1", Line3D.mk "L1" ⟨"C", 0, 1, 0⟩ ⟨"D", 1, 1, 0⟩)]
          (Line3D.mk "L2" ⟨"A", 0, 0, 0⟩ ⟨"B", 1, 0, 0⟩).name
          (Line3D.mk "L2" ⟨"A", 0, 0, 0⟩ ⟨"B", 1, 0, 0⟩))) ∧
    JMap.get? (JMap.set [("L1", Line3D.mk "L1" ⟨"C", 0, 1, 0⟩ ⟨"D", 1, 1, 0⟩)]
        (Line3D.mk "L2" ⟨"A", 0, 0, 0⟩ ⟨"B", 1, 0, 0⟩).name
        (Line3D.mk "L2" ⟨"A", 0, 0, 0⟩ ⟨"B", 1, 0, 0⟩))
      (Line3D.mk "L2" ⟨"A", 0, 0, 0⟩ ⟨"B", 1, 0, 0⟩).name =
      some (Line3D.mk "L2" ⟨"A", 0, 0, 0⟩ ⟨"B", 1, 0, 0⟩) :=
  claim_C4 (Line3D.mk "L2" ⟨"A", 0, 0, 0⟩ ⟨"B", 1, 0, 0⟩)
    [("A", ⟨"A", 0, 0, 0⟩), ("B", ⟨"B", 1, 0, 0⟩)]
    [("L1", Line3D.mk "L1" ⟨"C", 0, 1, 0⟩ ⟨"D", 1, 1, 0⟩)]
    (by with_unfolding_all rfl)

/-! ## The X-crossing resolver scenario (claim C8) -/

/-- Claim C8: for the candidate `(0,0,0)–(4,4,0)` against the existing line
`(0,4,0)–(4,0,0)` (no shared endpoint names, nodes `N1..N4`), the resolver
detects the intersection at `(2,2,0)`, removes both original lines and
produces exactly the 4 split lines plus 1 new node at that point named
`"N5"` — the next unused `N` index. -/
theorem claim_C8 :
    autoFixIntersections
      (Line3D.mk "L2" ⟨"N1", 0, 0, 0⟩ ⟨"N2", 4, 4, 0⟩)
      [("N1", ⟨"N1", 0, 0, 0⟩), ("N2", ⟨"N2", 4, 4, 0⟩),
       ("N3", ⟨"N3", 0, 4, 0⟩), ("N4", ⟨"N4", 4, 0, 0⟩)]
      [("L1", Line3D.mk "L1" ⟨"N3", 0, 4, 0⟩ ⟨"N4", 4, 0, 0⟩)] =
    some
      ([("N1", ⟨"N1", 0, 0, 0⟩), ("N2", ⟨"N2", 4, 4, 0⟩),
        ("N3", ⟨"N3", 0, 4, 0⟩), ("N4", ⟨"N4", 4, 0, 0⟩),
        ("N5", ⟨"N5", 2, 2, 0⟩)],
       [("L2a", Line3D.mk "L2a" ⟨"N1", 0, 0, 0⟩ ⟨"N5", 2, 2, 0⟩),
        ("L2b", Line3D.mk "L2b" ⟨"N5", 2, 2, 0⟩ ⟨"N2", 4, 4, 0⟩),
        ("L1a", Line3D.mk "L1a" ⟨"N3", 0, 4, 0⟩ ⟨"N5", 2, 2, 0⟩),
        ("L1b", Line3D.mk "L1b" ⟨"N5", 2, 2, 0⟩ ⟨"N4", 4, 0, 0⟩)]) := by
  with_unfolding_all rfl

/-! ## Junction auto-naming (claim C5) -/

theorem JMap.has_iff_mem_keys {α : Type} (m : JMap α) (k : String) :
    JMap.has m k = true ↔ k ∈ JMap.keys m := by
  simp [JMap.has, JMap.keys, List.any_eq_true, List.mem_map, decide_eq_true_eq]

/-- Freshness of `generateNodeName`: it returns a fresh name `N<k>` where `k` is the lowest
index at or above `size + 1` whose name is unused. -/
theorem generateNodeName_spec (m : JMap Node3D) :
    generateNodeName m ∉ JMap.keys m ∧
    ∃ k, generateNodeName m = mkName "N" k ∧ JMap.size m + 1 ≤ k ∧
      ∀ i, JMap.size m + 1 ≤ i → i < k → mkName "N" i ∈ JMap.keys m := by
  have hkl : (JMap.keys m).length = JMap.size m := by
    simp [JMap.keys, JMap.size]
  obtain ⟨j, hj, hfree⟩ := exists_fresh_name (JMap.keys m) "N" (JMap.size m + 1)
  have hex : ∃ j', j' < JMap.size m + 1 ∧
      mkName "N" (JMap.size m + 1 + j') ∉ JMap.keys m :=
    ⟨j, by omega, hfree⟩
  obtain ⟨k, hk, hge, hfr, hleast⟩ :=
    genNameLoop_spec (JMap.keys m) "N" (JMap.size m + 1) (JMap.size m + 1) hex
  have hgen : generateNodeName m = mkName "N" k := by
    simpa [generateNodeName] using hk
  refine ⟨by rw [hgen]; exact hfr, k, hgen, hge, fun i h1 h2 => hleast i h1 h2⟩

theorem autoFixStep_fst_size (newLine : Line3D) (st : JMap Node3D × JMap Line3D)
    (inter : Line3D × Vec3) :
    JMap.size (autoFixStep newLine st inter).1 = JMap.size st.1 + 1 := by
  have hfresh := (generateNodeName_spec st.1).1
  have hhas : ¬ JMap.has st.1 (generateNodeName st.1) = true := by
    rw [JMap.has_iff_mem_keys]
    exact hfresh
  simp only [autoFixStep]
  exact JMap.size_set_of_not_has _ _ _ hhas

theorem autoFixFold_fst_size (newLine : Line3D) :
    ∀ (ints : List (Line3D × Vec3)) (st : JMap Node3D × JMap Line3D),
      JMap.size (ints.foldl (autoFixStep newLine) st).1 = JMap.size st.1 + ints.length := by
  intro ints
  induction ints with
  | nil => intro st; simp
  | cons i t ih =>
    intro st
    simp only [List.foldl_cons, List.length_cons]
    rw [ih, autoFixStep_fst_size]
    omega

/-! ## `executeFixIntersections` (the all-pairs `fixIntersections` tool) -/

/-- The `(i, j), i < j` pairs of a list, in the double-loop order of the
source. -/
def pairsAfter {α : Type} : List α → List (α × α)
  | [] => []
  | x :: xs => xs.map (fun y => (x, y)) ++ pairsAfter xs

/-- One recorded intersection `{line1, line2, point, t1, t2}`. -/
structure EfiIntersection where
  line1 : String
  line2 : String
  point : Vec3
  t1 : ℚ
  t2 : ℚ
deriving DecidableEq

/-- The lookup `state.nodes.find(n => n.name === name)`. -/
def findNode (state : ToolState) (name : String) : Option Node3D :=
  state.nodes.find? (fun n => n.name = name)

/-- Two tool-state lines share an endpoint name. -/
def sLineSharesNode (l1 l2 : SLine) : Bool :=
  l1.node1 = l2.node1 ∨ l1.node1 = l2.node2 ∨ l1.node2 = l2.node1 ∨ l1.node2 = l2.node2

/-- The intersection-collection double loop of `executeFixIntersections`:
skip pairs with a missing endpoint node or a shared endpoint, record each
positive `lineLineIntersection` result. -/
def efiFindAll (state : ToolState) : List EfiIntersection :=
  (pairsAfter state.lines).foldl
    (fun acc pr =>
      match findNode state pr.1.node1, findNode state pr.1.node2,
            findNode state pr.2.node1, findNode state pr.2.node2 with
      | some n11, some n12, some n21, some n22 =>
        if sLineSharesNode pr.1 pr.2 then acc
        else
          match lineLineIntersection n11.pos n12.pos n21.pos n22.pos with
          | some r => acc ++ [⟨pr.1.name, pr.2.name, ⟨r.x, r.y, r.z⟩, r.t, r.s⟩]
          | none => acc
      | _, _, _, _ => acc)
    []

/-- The processing loop of `executeFixIntersections`: `nodeCounter` starts at
`state.nodes.length + 1` and is incremented per processed intersection with
no check against existing names; both lines are removed and the four split
lines appended, the junction node (coordinates rounded to 3 decimals) is
appended to the node list. An intersection whose lines were already removed
by an earlier iteration is skipped. -/
def efiProcess (intersections : List EfiIntersection) (st0 : ToolState) : ToolState :=
  (intersections.foldl
    (fun acc inter =>
      match acc.1.lines.find? (fun l => l.name = inter.line1),
            acc.1.lines.find? (fun l => l.name = inter.line2) with
      | some line1, some line2 =>
        let newNodeName := mkName "N" acc.2
        let newNode : Node3D :=
          ⟨newNodeName, round3 inter.point.x, round3 inter.point.y, round3 inter.point.z⟩
        let line1a : SLine := ⟨line1.name ++ "a", line1.node1, newNodeName⟩
        let line1b : SLine := ⟨line1.name ++ "b", newNodeName, line1.node2⟩
        let line2a : SLine := ⟨line2.name ++ "a", line2.node1, newNodeName⟩
        let line2b : SLine := ⟨line2.name ++ "b", newNodeName, line2.node2⟩
        (⟨acc.1.nodes ++ [newNode],
          (acc.1.lines.filter (fun l => ¬(l.name = line1.name ∨ l.name = line2.name)))
            ++ [line1a, line1b, line2a, line2b]⟩,
         acc.2 + 1)
      | _, _ => acc)
    (st0, st0.nodes.length + 1)).1

/-- The tool `executeFixIntersections`: early return below 2 lines or with no
detected intersection, otherwise run the processing loop. -/
def executeFixIntersections (state : ToolState) : ToolState :=
  if state.lines.length < 2 then state
  else
    let intersections := efiFindAll state
    if intersections.isEmpty then state
    else efiProcess intersections state

/-- Claim C5 counterexample: the structure has nodes `A`, `B`, `C` and `N5`
(so `nodes.length + 1 = 5`) and the crossing lines `A–B` and `C–N5`; the
`fixIntersections` resolution pass names the junction `N${nodes.length+1}` =
`"N5"` without any uniqueness check, duplicating the existing node name
`"N5"` — the junction's name is neither unused nor the lowest-numbered
unused `N<k>` (`"N1"` is free). It even produces the self-loop line
`L2b : N5–N5`. -/
theorem claim_C5_counterexample :
    executeFixIntersections
      ⟨[⟨"A", 0, 0, 0⟩, ⟨"B", 4, 4, 0⟩, ⟨"C", 0, 4, 0⟩, ⟨"N5", 4, 0, 0⟩],
       [⟨"L1", "A", "B"⟩, ⟨"L2", "C", "N5"⟩]⟩ =
    ⟨[⟨"A", 0, 0, 0⟩, ⟨"B", 4, 4, 0⟩, ⟨"C", 0, 4, 0⟩, ⟨"N5", 4, 0, 0⟩,
      ⟨"N5", 2, 2, 0⟩],
     [⟨"L1a", "A", "N5"⟩, ⟨"L1b", "N5", "B"⟩,
      ⟨"L2a", "C", "N5"⟩, ⟨"L2b", "N5", "N5"⟩]⟩ := by
  with_unfolding_all rfl

/-- Claim C5 (amended): in `autoFixIntersections` every junction is
auto-named by `generateNodeName` with an `N<k>` not present in the current
node map (hence never clashing with the structure or with junctions created
earlier in the same pass — the node count grows by exactly one per detected
intersection), and the chosen `k` is the lowest unused index at or above
`nodeMap.size + 1` — not the globally lowest unused index. The
`executeFixIntersections` pass instead names junctions with an unchecked
sequential counter starting at `nodes.length + 1`, which can duplicate an
existing node name (as on the concrete `N5` structure below). -/
theorem claim_C5_amended :
    (∀ m : JMap Node3D,
      generateNodeName m ∉ JMap.keys m ∧
      ∃ k, generateNodeName m = mkName "N" k ∧ JMap.size m + 1 ≤ k ∧
        ∀ i, JMap.size m + 1 ≤ i → i < k → mkName "N" i ∈ JMap.keys m) ∧
    (∀ (newLine : Line3D) (nodes : JMap Node3D) (lines : JMap Line3D),
      ∃ ns ls, autoFixIntersections newLine nodes lines = some (ns, ls) ∧
        JMap.size ns = JMap.size nodes + (findIntersections newLine lines).length) ∧
    ((executeFixIntersections
        ⟨[⟨"A", 0, 0, 0⟩, ⟨"B", 4, 4, 0⟩, ⟨"C", 0, 4, 0⟩, ⟨"N5", 4, 0, 0⟩],
         [⟨"L1", "A", "B"⟩, ⟨"L2", "C", "N5"⟩]⟩).nodes.map Node3D.name =
      ["A", "B", "C", "N5", "N5"]) := by
  refine ⟨generateNodeName_spec, ?_, by with_unfolding_all rfl⟩
  intro newLine nodes lines
  by_cases hi : (findIntersections newLine lines).isEmpty = true
  · refine ⟨nodes, JMap.set lines newLine.name newLine, ?_, ?_⟩
    · simp [autoFixIntersections, hi]
    · rw [List.isEmpty_iff] at hi
      simp [hi]
  · refine ⟨((findIntersections newLine lines).foldl (autoFixStep newLine)
        (nodes, JMap.set lines newLine.name newLine)).1,
      ((findIntersections newLine lines).foldl (autoFixStep newLine)
        (nodes, JMap.set lines newLine.name newLine)).2, ?_, ?_⟩
    · simp [autoFixIntersections, hi]
    · exact autoFixFold_fst_size newLine _ _

/-! ## Failure-loop circuit breaker

The `validationHistory` logic of `executeValidateStructure` (Step 6 of the
source): per-session `{count, lastErrorSignature, lastActions}` records,
mutated on every failing validation and deleted on a valid one. The error
signature (JSON of the first 3 critical issues) and the serialized current
line set are treated as opaque strings here, exactly as the breaker itself
treats them. -/

/-- One `validationHistory` record. -/
structure VHistory where
  count : Nat
  lastErrorSignature : String
  lastActions : List String
deriving DecidableEq

/-- The decision produced by one observation of a validation outcome. -/
structure BreakerResult where
  history : Option VHistory
  triggered : Bool
  repeatCount : Nat
deriving DecidableEq

/-- One circuit-breaker observation: on a valid report the session history
is deleted; on a failing report the record (default `{0, "", []}`) is
updated — same signature increments `count` (plus 2 more if the current
line set already occurs in the bounded history `lastActions`), a new
signature resets `count` to 1; the line-set snapshot is pushed and the
window trimmed to the last 5; the breaker triggers at `count ≥ 3`. -/
def breakerStep (hist : Option VHistory) (valid : Bool)
    (errorSignature currentLines : String) : BreakerResult :=
  if valid then ⟨none, false, 0⟩
  else
    let h := hist.getD ⟨0, "", []⟩
    let h1 : VHistory :=
      if h.lastErrorSignature = errorSignature then
        let c0 := h.count + 1
        let c1 := if currentLines ∈ h.lastActions then c0 + 2 else c0
        ⟨c1, h.lastErrorSignature, h.lastActions⟩
      else ⟨1, errorSignature, h.lastActions⟩
    let la0 := h1.lastActions ++ [currentLines]
    let la := if la0.length > 5 then la0.tail else la0
    let h2 : VHistory := ⟨h1.count, h1.lastErrorSignature, la⟩
    ⟨some h2, decide (h2.count ≥ 3), h2.count⟩

/-- Claim C1: for any issue signature and line-set snapshot, feeding the
same failing report three times consecutively from a fresh session makes
the 3rd call return a triggered decision; one passing report afterwards
deletes the session history, and a subsequent identical failure starts its
repeat count at 1 again. -/
theorem claim_C1 (sig lines : String) :
    (breakerStep (breakerStep (breakerStep none false sig lines).history
        false sig lines).history false sig lines).triggered = true ∧
    (breakerStep (breakerStep (breakerStep (breakerStep none false sig lines).history
        false sig lines).history false sig lines).history true sig lines).history = none ∧
    (breakerStep none false sig lines).repeatCount = 1 := by
  by_cases hsig : sig = ""
  · subst hsig
    simp [breakerStep]
  · have hsig' : ¬ ("" = sig) := fun hh => hsig hh.symm
    simp [breakerStep, hsig']

/-- Claim C6 counterexample: with history `{count 1, lastSig "s",
lastActions ["x"]}`, a failing observation with the same signature whose
line set `"x"` is already in the history raises the count from 1 to 4 — an
increase of 3, not the claimed "2 instead of 1". -/
theorem claim_C6_counterexample :
    (breakerStep (some ⟨1, "s", ["x"]⟩) false "s" "x").repeatCount = 4 ∧
    (4 : ℕ) ≠ 1 + 2 := by
  exact ⟨by decide, by decide⟩

/-- Claim C6 (amended): on a failing validation whose issue signature equals
the previous one and whose serialized line set matches an entry of the
bounded size-5 history, the repeat count increases by 3 (the +1 for the
repetition plus the +2 oscillation escalation); when the signature differs
from the previous one the count resets to 1 regardless of any line-set
match. -/
theorem claim_C6_amended (h : VHistory) (sig lines : String) :
    (h.lastErrorSignature = sig → lines ∈ h.lastActions →
      (breakerStep (some h) false sig lines).repeatCount = h.count + 3) ∧
    (h.lastErrorSignature ≠ sig →
      (breakerStep (some h) false sig lines).repeatCount = 1) := by
  constructor
  · intro hs hm
    simp [breakerStep, hs, hm]
  · intro hs
    simp [breakerStep, hs]

/-- Witness for C6 (amended): both branches applied at concrete histories. -/
theorem claim_C6_witness :
    ((breakerStep (some ⟨1, "s", ["x"]⟩) false "s" "x").repeatCount = 1 + 3) ∧
    ((breakerStep (some ⟨2, "s", []⟩) false "t" "x").repeatCount = 1) :=
  ⟨(claim_C6_amended ⟨1, "s", ["x"]⟩ "s" "x").1 (by decide) (by decide),
   (claim_C6_amended ⟨2, "s", []⟩ "t" "x").2 (by decide)⟩

/-! ## The `createLine` tool (claim C10) -/

/-- The auto-naming loop of `executeCreateLine`: `counter` starts at 1 and
is incremented while some line is already called `L${counter}`. -/
def genLineName (lines : List SLine) : String :=
  genNameLoop (lines.map SLine.name) "L" (lines.length + 1) 1

/-- The tool `executeCreateLine`: reject a self-loop, a missing endpoint node, or a
duplicate connection (either orientation), leaving the state untouched;
otherwise append exactly one line, auto-generating a fresh `L<k>` name when
none is given or the given one is taken. (The computed distance only feeds
the result message and is not modelled.) -/
def executeCreateLine (node1 node2 : String) (nameArg : Option String)
    (state : ToolState) : Bool × ToolState :=
  if node1 = node2 then (false, state)
  else if (findNode state node1).isNone then (false, state)
  else if (findNode state node2).isNone then (false, state)
  else if state.lines.any (fun l =>
      (l.node1 = node1 ∧ l.node2 = node2) ∨ (l.node1 = node2 ∧ l.node2 = node1)) then
    (false, state)
  else
    let lineName :=
      match nameArg with
      | some nm => if state.lines.any (fun l => l.name = nm) then genLineName state.lines else nm
      | none => genLineName state.lines
    (true, ⟨state.nodes, state.lines ++ [⟨lineName, node1, node2⟩]⟩)

theorem genLineName_fresh (lines : List SLine) :
    ∀ l ∈ lines, l.name ≠ genLineName lines := by
  have hkl : (lines.map SLine.name).length = lines.length := List.length_map _ _
  obtain ⟨j, hj, hfree⟩ := exists_fresh_name (lines.map SLine.name) "L" 1
  have hex : ∃ j', j' < lines.length + 1 ∧
      mkName "L" (1 + j') ∉ lines.map SLine.name := ⟨j, by omega, hfree⟩
  obtain ⟨k, hk, _, hfr, _⟩ := genNameLoop_spec (lines.map SLine.name) "L" (lines.length + 1) 1 hex
  intro l hl hname
  have : genLineName lines ∈ lines.map SLine.name := by
    rw [← hname]
    exact List.mem_map_of_mem _ hl
  rw [genLineName, hk] at this
  exact hfr this

/-- Claim C10: `createLine` fails (and leaves the state completely
unchanged) exactly when the two node names coincide, a named node does not
exist, or some line already connects the two nodes in either orientation;
in every other case it appends exactly one new line between the two nodes
whose name is not already used by any line. -/
theorem claim_C10 (node1 node2 : String) (nameArg : Option String) (state : ToolState) :
    ((executeCreateLine node1 node2 nameArg state).1 = false ↔
      (node1 = node2 ∨ findNode state node1 = none ∨ findNode state node2 = none ∨
        ∃ l ∈ state.lines,
          (l.node1 = node1 ∧ l.node2 = node2) ∨ (l.node1 = node2 ∧ l.node2 = node1))) ∧
    ((executeCreateLine node1 node2 nameArg state).1 = false →
      (executeCreateLine node1 node2 nameArg state).2 = state) ∧
    ((executeCreateLine node1 node2 nameArg state).1 = true →
      (executeCreateLine node1 node2 nameArg state).2.nodes = state.nodes ∧
      ∃ nm, (executeCreateLine node1 node2 nameArg state).2.lines =
          state.lines ++ [⟨nm, node1, node2⟩] ∧
        ∀ l ∈ state.lines, l.name ≠ nm) := by
  by_cases h1 : node1 = node2
  · have hres : executeCreateLine node1 node2 nameArg state = (false, state) := by
      simp only [executeCreateLine, if_pos h1]
    rw [hres]
    exact ⟨iff_of_true rfl (Or.inl h1), fun _ => rfl, fun hc => nomatch hc⟩
  · by_cases h2 : (findNode state node1).isNone = true
    · have h2' : findNode state node1 = none := Option.isNone_iff_eq_none.mp h2
      have hres : executeCreateLine node1 node2 nameArg state = (false, state) := by
        simp only [executeCreateLine, if_neg h1, if_pos h2]
      rw [hres]
      exact ⟨iff_of_true rfl (Or.inr (Or.inl h2')), fun _ => rfl, fun hc => nomatch hc⟩
    · by_cases h3 : (findNode state node2).isNone = true
      · have h3' : findNode state node2 = none := Option.isNone_iff_eq_none.mp h3
        have hres : executeCreateLine node1 node2 nameArg state = (false, state) := by
          simp only [executeCreateLine, if_neg h1, if_neg h2, if_pos h3]
        rw [hres]
        exact ⟨iff_of_true rfl (Or.inr (Or.inr (Or.inl h3'))), fun _ => rfl,
          fun hc => nomatch hc⟩
      · by_cases h4 : state.lines.any (fun l =>
            (l.node1 = node1 ∧ l.node2 = node2) ∨ (l.node1 = node2 ∧ l.node2 = node1)) = true
        · have h4' : ∃ l ∈ state.lines,
              (l.node1 = node1 ∧ l.node2 = node2) ∨ (l.node1 = node2 ∧ l.node2 = node1) := by
            simpa [List.any_eq_true, decide_eq_true_eq] using h4
          have hres : executeCreateLine node1 node2 nameArg state = (false, state) := by
            simp only [executeCreateLine, if_neg h1, if_neg h2, if_neg h3, if_pos h4]
          rw [hres]
          exact ⟨iff_of_true rfl (Or.inr (Or.inr (Or.inr h4'))), fun _ => rfl,
            fun hc => nomatch hc⟩
        · have hnotfail : ¬ (node1 = node2 ∨ findNode state node1 = none ∨
              findNode state node2 = none ∨ ∃ l ∈ state.lines,
                (l.node1 = node1 ∧ l.node2 = node2) ∨ (l.node1 = node2 ∧ l.node2 = node1)) := by
            intro hd
            rcases hd with hd | hd | hd | hd
            · exact h1 hd
            · exact h2 (by simp [hd])
            · exact h3 (by simp [hd])
            · exact h4 (by simpa [List.any_eq_true, decide_eq_true_eq] using hd)
          cases nameArg with
          | none =>
            have hres : executeCreateLine node1 node2 none state =
                (true, ⟨state.nodes, state.lines ++ [⟨genLineName state.lines, node1, node2⟩]⟩) := by
              simp only [executeCreateLine, if_neg h1, if_neg h2, if_neg h3, if_neg h4]
            rw [hres]
            exact ⟨iff_of_false (by simp) hnotfail, fun hc => by simp at hc,
              fun _ => ⟨rfl, genLineName state.lines, rfl, genLineName_fresh state.lines⟩⟩
          | some nm =>
            by_cases h5 : state.lines.any (fun l => l.name = nm) = true
            · have hres : executeCreateLine node1 node2 (some nm) state =
                  (true, ⟨state.nodes, state.lines ++ [⟨genLineName state.lines, node1, node2⟩]⟩) := by
                simp only [executeCreateLine, if_neg h1, if_neg h2, if_neg h3, if_neg h4]
                simp only [if_pos h5]
              rw [hres]
              exact ⟨iff_of_false (by simp) hnotfail, fun hc => by simp at hc,
                fun _ => ⟨rfl, genLineName state.lines, rfl, genLineName_fresh state.lines⟩⟩
            · have hres : executeCreateLine node1 node2 (some nm) state =
                  (true, ⟨state.nodes, state.lines ++ [⟨nm, node1, node2⟩]⟩) := by
                simp only [executeCreateLine, if_neg h1, if_neg h2, if_neg h3, if_neg h4]
                simp only [if_neg h5]
              rw [hres]
              refine ⟨iff_of_false (by simp) hnotfail, fun hc => by simp at hc,
                fun _ => ⟨rfl, nm, rfl, ?_⟩⟩
              intro l hl hname
              exact h5 (List.any_eq_true.mpr ⟨l, hl, by simpa using hname⟩)

/-- Witness for C10: a rejected self-loop leaves the state unchanged, and a
successful call on two existing nodes (with an unrelated existing line
`L1`) appends one freshly named line. -/
theorem claim_C10_witness :
    ((executeCreateLine "A" "A" none ⟨[⟨"A", 0, 0, 0⟩], []⟩).2 = ⟨[⟨"A", 0, 0, 0⟩], []⟩) ∧
    ((executeCreateLine "A" "B" none
        ⟨[⟨"A", 0, 0, 0⟩, ⟨"B", 1, 0, 0⟩], [⟨"L1", "A", "C"⟩]⟩).2.nodes =
      (ToolState.mk [⟨"A", 0, 0, 0⟩, ⟨"B", 1, 0, 0⟩] [⟨"L1", "A", "C"⟩]).nodes ∧
    ∃ nm, (executeCreateLine "A" "B" none
        ⟨[⟨"A", 0, 0, 0⟩, ⟨"B", 1, 0, 0⟩], [⟨"L1", "A", "C"⟩]⟩).2.lines =
        (ToolState.mk [⟨"A", 0, 0, 0⟩, ⟨"B", 1, 0, 0⟩] [⟨"L1", "A", "C"⟩]).lines
          ++ [⟨nm, "A", "B"⟩] ∧
      ∀ l ∈ (ToolState.mk [⟨"A", 0, 0, 0⟩, ⟨"B", 1, 0, 0⟩] [⟨"L1", "A", "C"⟩]).lines,
        l.name ≠ nm) := by
  constructor
  · exact (claim_C10 "A" "A" none ⟨[⟨"A", 0, 0, 0⟩], []⟩).2.1 (by decide)
  · exact (claim_C10 "A" "B" none
      ⟨[⟨"A", 0, 0, 0⟩, ⟨"B", 1, 0, 0⟩], [⟨"L1", "A", "C"⟩]⟩).2.2 (by decide)

/-! ## Structural validator (`executeValidateStructure`)

Steps 1–4 of the source, producing the pushed issue list in push order.
Issue records keep the discriminating fields (`type`, `severity`,
`affectedNodes`, `affectedLines`); absent optional fields are `none`. -/

inductive ErrKind
  | illogical_connection
  | missing_connection
  | incomplete_structure
deriving DecidableEq

inductive Severity
  | critical
  | warning
deriving DecidableEq

/-- A `StructuralError` without its free-text fields. -/
structure SError where
  type : ErrKind
  severity : Severity
  affectedNodes : Option (List String)
  affectedLines : Option (List String)
deriving DecidableEq

/-- Stable insertion of `x` into an already-comparator-sorted list (the
stable `Array.prototype.sort` behaviour: `x` goes before the first element
that must come strictly after it). -/
def insertJS {α : Type} (cmp : α → α → ℚ) (x : α) : List α → List α
  | [] => [x]
  | y :: ys => if cmp y x > 0 then x :: y :: ys else y :: insertJS cmp x ys

/-- Stable comparator sort (JS `Array.prototype.sort`). -/
def sortJS {α : Type} (cmp : α → α → ℚ) (l : List α) : List α :=
  l.foldl (fun acc x => insertJS cmp x acc) []

/-- The minimum `Math.min(...)` of the ys (the validator only uses it on a nonempty
structure; the `[]` default is never reached past the early return). -/
def minYv (state : ToolState) : ℚ :=
  match state.nodes.map Node3D.y with
  | [] => 0
  | y :: ys => ys.foldl min y

/-- The maximum `Math.max(...)` of the ys. -/
def maxYv (state : ToolState) : ℚ :=
  match state.nodes.map Node3D.y with
  | [] => 0
  | y :: ys => ys.foldl max y

/-- The ascending Y values (JS `sort((a, b) => a - b)`). -/
def yValuesSorted (state : ToolState) : List ℚ :=
  sortJS (fun a b => a - b) (state.nodes.map Node3D.y)

/-- Distinct levels `[...new Set(yValues)]`: first occurrences, i.e. ascending distinct
levels. -/
def uniqueY (state : ToolState) : List ℚ :=
  (yValuesSorted state).foldl (fun acc y => if y ∈ acc then acc else acc ++ [y]) []

/-- Floor tier: `|y - minY| < 0.1`. -/
def floorNodes (state : ToolState) : List Node3D :=
  state.nodes.filter (fun n => |n.y - minYv state| < 1/10)

/-- Roof tier: `|y - maxY| < 0.1`. -/
def roofNodes (state : ToolState) : List Node3D :=
  state.nodes.filter (fun n => |n.y - maxYv state| < 1/10)

/-- Mid tier: neither floor nor roof. -/
def midNodes (state : ToolState) : List Node3D :=
  state.nodes.filter (fun n => |n.y - minYv state| ≥ 1/10 ∧ |n.y - maxYv state| ≥ 1/10)

/-- The test `state.lines.some(line => (line.node1 === a && line.node2 === b) || …)`. -/
def hasLineBetween (state : ToolState) (a b : String) : Bool :=
  state.lines.any (fun line =>
    (line.node1 = a ∧ line.node2 = b) ∨ (line.node2 = a ∧ line.node1 = b))

/-- Step 2: the illogical-connection errors contributed by one line
(roof-to-floor critical, wall-top-to-floor critical, large-Y-span warning),
in push order. Lines with a dangling endpoint are skipped. -/
def lineIllogicalErrors (state : ToolState) (line : SLine) : List SError :=
  match findNode state line.node1, findNode state line.node2 with
  | some node1, some node2 =>
    let yDiff := |node1.y - node2.y|
    let isFloor1 := |node1.y - minYv state| < 1/10
    let isFloor2 := |node2.y - minYv state| < 1/10
    let isMid1 := ¬ isFloor1 ∧ |node1.y - maxYv state| ≥ 1/10
    let isMid2 := ¬ isFloor2 ∧ |node2.y - maxYv state| ≥ 1/10
    let isRoof1 := |node1.y - maxYv state| < 1/10
    let isRoof2 := |node2.y - maxYv state| < 1/10
    let isVertical := |node1.x - node2.x| < 1/10 ∧ |node1.z - node2.z| < 1/10
    let e1 : List SError :=
      if ((isRoof1 ∧ isFloor2) ∨ (isFloor1 ∧ isRoof2)) ∧ ¬ isVertical then
        [⟨.illogical_connection, .critical, some [line.node1, line.node2], some [line.name]⟩]
      else []
    let e2 : List SError :=
      if ((isMid1 ∧ isFloor2) ∨ (isFloor1 ∧ isMid2)) ∧ ¬ isVertical then
        [⟨.illogical_connection, .critical, some [line.node1, line.node2], some [line.name]⟩]
      else []
    let e3 : List SError :=
      if yDiff > (maxYv state - minYv state) * (4/5) ∧ yDiff > 2 ∧
          ¬ (|node1.x - node2.x| < 1/10 ∧ |node1.z - node2.z| < 1/10) then
        [⟨.illogical_connection, .warning, none, some [line.name]⟩]
      else []
    e1 ++ e2 ++ e3
  | _, _ => []

def step2Errors (state : ToolState) : List SError :=
  state.lines.foldl (fun acc l => acc ++ lineIllogicalErrors state l) []

/-- Step 3a: roof apexes — roof nodes whose own Y level holds at most 2
roof nodes. -/
def roofApexes (state : ToolState) : List Node3D :=
  (roofNodes state).filter (fun apex =>
    ((roofNodes state).filter (fun n => |n.y - apex.y| < 1/10)).length ≤ 2)

/-- The level `uniqueY[uniqueY.length - 2]`: the second-highest Y level (undefined in
JS when fewer than 2 levels exist). -/
def wallTopY? (state : ToolState) : Option ℚ :=
  if (uniqueY state).length < 2 then none
  else (uniqueY state).get? ((uniqueY state).length - 2)

def wallTopNodes (state : ToolState) : List Node3D :=
  match wallTopY? state with
  | some wy => state.nodes.filter (fun n => |n.y - wy| < 1/10)
  | none => []

/-- Step 3a: incomplete-roof-pyramid errors (one per apex connected to
fewer wall-top nodes than expected: all 4 for a rectangular wall-top, at
least 2 otherwise). -/
def step3aErrors (state : ToolState) : List SError :=
  if (roofNodes state).length > 0 then
    if (roofApexes state).length > 0 ∧ (wallTopNodes state).length > 0 then
      (roofApexes state).foldl
        (fun acc apex =>
          let connected := (wallTopNodes state).filter
            (fun w => hasLineBetween state apex.name w.name)
          let expected := if (wallTopNodes state).length = 4 then 4 else 2
          if connected.length < expected then
            let missing := (wallTopNodes state).filter (fun w => w ∉ connected)
            acc ++ [⟨.missing_connection, .critical,
              some (apex.name :: missing.map Node3D.name), none⟩]
          else acc)
        []
    else []
  else []

/-- Step 3b: missing vertical wall from a floor corner to the mid-tier
node directly above it (same X/Z, higher Y). -/
def step3bErrors (state : ToolState) : List SError :=
  if (floorNodes state).length > 0 ∧ (midNodes state).length > 0 then
    (floorNodes state).foldl
      (fun acc fl =>
        match (midNodes state).find?
            (fun wt => |wt.x - fl.x| < 1/10 ∧ |wt.z - fl.z| < 1/10 ∧ wt.y > fl.y) with
        | some wt =>
          if ¬ hasLineBetween state fl.name wt.name then
            acc ++ [⟨.missing_connection, .critical, some [fl.name, wt.name], none⟩]
          else acc
        | none => acc)
      []
  else []

/-- The `(a, b) => |a.z − b.z| > 0.1 ? a.z − b.z : a.x − b.x` corner-sort
comparator. -/
def cornerCmp (a b : Node3D) : ℚ :=
  if |a.z - b.z| > 1/10 then a.z - b.z else a.x - b.x

def minOf (l : List ℚ) : ℚ :=
  match l with
  | [] => 0
  | v :: vs => vs.foldl min v

def maxOf (l : List ℚ) : ℚ :=
  match l with
  | [] => 0
  | v :: vs => vs.foldl max v

/-- The 4-corner perimeter check shared verbatim by the floor (step 3c) and
wall-top (step 3d) rectangles: identify the corners by exact min/max X/Z
match over the comparator-sorted tier, then require the 4 edges
front/right/back/left. -/
def rectPerimeterErrors (state : ToolState) (tier : List Node3D) : List SError :=
  let sorted := sortJS cornerCmp tier
  let minX := minOf (tier.map Node3D.x)
  let maxX := maxOf (tier.map Node3D.x)
  let minZ := minOf (tier.map Node3D.z)
  let maxZ := maxOf (tier.map Node3D.z)
  let frontLeft := sorted.find? (fun n => n.x = minX ∧ n.z = minZ)
  let frontRight := sorted.find? (fun n => n.x = maxX ∧ n.z = minZ)
  let backRight := sorted.find? (fun n => n.x = maxX ∧ n.z = maxZ)
  let backLeft := sorted.find? (fun n => n.x = minX ∧ n.z = maxZ)
  [(frontLeft, frontRight), (frontRight, backRight),
   (backRight, backLeft), (backLeft, frontLeft)].foldl
    (fun acc e =>
      match e.1, e.2 with
      | some n1, some n2 =>
        if ¬ hasLineBetween state n1.name n2.name then
          acc ++ [⟨.missing_connection, .critical, some [n1.name, n2.name], none⟩]
        else acc
      | _, _ => acc)
    []

/-- The `zGroups` key `Math.round(z * 10) / 10`. -/
def round1 (q : ℚ) : ℚ :=
  (⌊q * 10 + 1 / 2⌋ : ℚ) / 10

/-- Adjacent pairs of a list. -/
def adjacentPairs {α : Type} : List α → List (α × α)
  | x :: y :: t => (x, y) :: adjacentPairs (y :: t)
  | _ => []

/-- Step 3c: floor-perimeter check — the rectangle check for exactly 4
floor nodes; for more than 4, per-Z-plane adjacency warnings (group keys in
first-encounter order). -/
def step3cErrors (state : ToolState) : List SError :=
  if (floorNodes state).length = 4 then rectPerimeterErrors state (floorNodes state)
  else if (floorNodes state).length > 4 then
    let keysZ := (floorNodes state).foldl
      (fun acc n => if round1 n.z ∈ acc then acc else acc ++ [round1 n.z]) []
    keysZ.foldl
      (fun acc zk =>
        let group := (floorNodes state).filter (fun n => round1 n.z = zk)
        if group.length ≥ 2 then
          let sortedByX := sortJS (fun a b => a.x - b.x) group
          (adjacentPairs sortedByX).foldl
            (fun acc2 pr =>
              if ¬ hasLineBetween state pr.1.name pr.2.name then
                acc2 ++ [⟨.missing_connection, .warning,
                  some [pr.1.name, pr.2.name], none⟩]
              else acc2)
            acc
        else acc)
      []
  else []

/-- Step 3d: wall-top perimeter check for exactly 4 mid-tier nodes. -/
def step3dErrors (state : ToolState) : List SError :=
  if (midNodes state).length = 4 then rectPerimeterErrors state (midNodes state)
  else []

/-! ### Step 4: gravity / grounding analysis -/

/-- The undirected adjacency of the validator: the neighbour-name set of a
node name (line endpoints are recorded even if dangling; a non-node name
has no adjacency entry). The source builds this as a `Map` of `Set`s; only
membership in the sets is ever used, so a duplicate-preserving list is an
equivalent model. -/
def adjacencyFn (state : ToolState) (name : String) : List String :=
  if state.nodes.any (fun n => n.name = name) then
    ((state.lines.filter (fun l => l.node1 = name)).map SLine.node2) ++
      ((state.lines.filter (fun l => l.node2 = name)).map SLine.node1)
  else []

/-- The visited/grounded accumulator of `findGroundedNodes`. -/
structure DfsSt where
  visited : List String
  grounded : List String
deriving DecidableEq

/-- The traversal `findGroundedNodes`: depth-first, marking floor-level nodes as
grounded; a name without a node record is marked visited but not traversed.
The source recursion terminates because `visited` only grows; the fuel
bounds the recursion depth and `dfsFuel` below always suffices (each
nesting level visits a new name, and at most `#nodes + 2·#lines` distinct
names are reachable). -/
def dfsVisit (state : ToolState) : Nat → DfsSt → String → DfsSt
  | 0, st, _ => st
  | fuel + 1, st, name =>
    if name ∈ st.visited then st
    else
      let st1 : DfsSt := ⟨name :: st.visited, st.grounded⟩
      match findNode state name with
      | none => st1
      | some nd =>
        let st2 : DfsSt :=
          if |nd.y - minYv state| < 1/10 then ⟨st1.visited, name :: st1.grounded⟩ else st1
        (adjacencyFn state name).foldl (fun s nb => dfsVisit state fuel s nb) st2

def dfsFuel (state : ToolState) : Nat :=
  state.nodes.length + 2 * state.lines.length + 2

/-- The grounded set after starting the traversal from every floor node. -/
def dfsGrounded (state : ToolState) : List String :=
  ((floorNodes state).foldl
    (fun st f => dfsVisit state (dfsFuel state) st f.name) ⟨[], []⟩).grounded

/-- One pass of the fixed-point relaxation: any not-yet-grounded node with a
grounded neighbour becomes grounded (the growing set is visible within the
pass, as in the source). -/
def relaxStep (state : ToolState) (g : List String) : List String :=
  state.nodes.foldl
    (fun acc node =>
      if node.name ∈ acc then acc
      else if (adjacencyFn state node.name).any (fun nb => nb ∈ acc) then acc ++ [node.name]
      else acc)
    g

/-- The `while (changed)` loop: iterate `relaxStep` until a pass changes
nothing. Each productive pass grounds at least one new node, so
`#nodes + 1` rounds always reach the fixed point. -/
def relaxLoop (state : ToolState) : Nat → List String → List String
  | 0, g => g
  | fuel + 1, g =>
    let g' := relaxStep state g
    if g' = g then g else relaxLoop state fuel g'

def groundedFinal (state : ToolState) : List String :=
  relaxLoop state (state.nodes.length + 1) (dfsGrounded state)

/-- The nodes with no structural path to ground. -/
def floatingNodes (state : ToolState) : List Node3D :=
  state.nodes.filter (fun n => n.name ∉ groundedFinal state)

/-- Step 4: one critical `missing_connection` ("floating") issue per
ungrounded node. -/
def step4Errors (state : ToolState) : List SError :=
  (floatingNodes state).map
    (fun n => ⟨.missing_connection, .critical, some [n.name], none⟩)

/-- The merged issue list of `executeValidateStructure`, in push order. -/
def validateErrors (state : ToolState) : List SError :=
  step2Errors state ++ step3aErrors state ++ step3bErrors state ++
    step3cErrors state ++ step3dErrors state ++ step4Errors state

/-- The validator `executeValidateStructure` (validation part): empty structures are
trivially valid; otherwise `valid` iff no critical issue. -/
def validateStructure (state : ToolState) : Bool × List SError :=
  if state.nodes.length = 0 then (true, [])
  else
    let errors := validateErrors state
    (((errors.filter (fun e => e.severity = Severity.critical)).length = 0 : Bool), errors)

/-! ## The isolated-node scenario (claim C7) -/

/-- Claim C7 counterexample: on the fully connected 4-corner floor
`(0,0,0),(4,0,0),(4,0,3),(0,0,3)` plus the isolated node `N5` at
`(10,10,10)`, the validator reports **two** `missing_connection` issues,
not exactly one: `N5` becomes the only roof-tier node and is classified as
a roof apex, the floor corners become the "wall-top" level
(`uniqueY[length-2]`), and the roof-completeness pass flags the apex as
connected to 0/4 wall-top nodes — in addition to the grounding pass
flagging `N5` as floating. -/
theorem claim_C7_counterexample :
    ((validateStructure
        ⟨[⟨"N1", 0, 0, 0⟩, ⟨"N2", 4, 0, 0⟩, ⟨"N3", 4, 0, 3⟩, ⟨"N4", 0, 0, 3⟩,
          ⟨"N5", 10, 10, 10⟩],
         [⟨"L1", "N1", "N2"⟩, ⟨"L2", "N2", "N3"⟩, ⟨"L3", "N3", "N4"⟩,
          ⟨"L4", "N4", "N1"⟩]⟩).2.filter
      (fun e => e.type = ErrKind.missing_connection)).length = 2 ∧ (2 : ℕ) ≠ 1 := by
  exact ⟨by with_unfolding_all rfl, by decide⟩

/-- Claim C7 (amended): on that structure the validator reports exactly two
`missing_connection` issues (and nothing else): the incomplete-roof-pyramid
issue naming `N5` and the four floor corners, followed by the floating
issue naming exactly the isolated node `N5`; the report is invalid. -/
theorem claim_C7_amended :
    validateStructure
      ⟨[⟨"N1", 0, 0, 0⟩, ⟨"N2", 4, 0, 0⟩, ⟨"N3", 4, 0, 3⟩, ⟨"N4", 0, 0, 3⟩,
        ⟨"N5", 10, 10, 10⟩],
       [⟨"L1", "N1", "N2"⟩, ⟨"L2", "N2", "N3"⟩, ⟨"L3", "N3", "N4"⟩,
        ⟨"L4", "N4", "N1"⟩]⟩ =
    (false,
     [⟨ErrKind.missing_connection, Severity.critical,
       some ["N5", "N1", "N2", "N3", "N4"], none⟩,
      ⟨ErrKind.missing_connection, Severity.critical, some ["N5"], none⟩]) := by
  with_unfolding_all rfl

/-! ## Grounding invariant (claim C2)

The relaxation pass only appends names of not-yet-grounded nodes, so the
`while (changed)` loop reaches a genuine fixed point within `#nodes + 1`
rounds; at the fixed point the ungrounded set is closed under adjacency,
and reachability from a floor node forces membership in the grounded set. -/

theorem relaxFold_spec (state : ToolState) :
    ∀ (l : List Node3D) (acc : List String),
      ∃ adds,
        l.foldl
          (fun acc node =>
            if node.name ∈ acc then acc
            else if (adjacencyFn state node.name).any (fun nb => nb ∈ acc) then
              acc ++ [node.name]
            else acc) acc = acc ++ adds ∧
        ∀ y ∈ adds, (∃ nd ∈ l, nd.name = y) ∧ y ∉ acc := by
  intro l
  induction l with
  | nil =>
    intro acc
    exact ⟨[], by simp, by simp⟩
  | cons n t ih =>
    intro acc
    simp only [List.foldl_cons]
    by_cases h1 : n.name ∈ acc
    · rw [if_pos h1]
      obtain ⟨adds, heq, hmem⟩ := ih acc
      refine ⟨adds, heq, fun y hy => ?_⟩
      obtain ⟨⟨nd, hnd, hname⟩, hnotin⟩ := hmem y hy
      exact ⟨⟨nd, List.mem_cons_of_mem n hnd, hname⟩, hnotin⟩
    · rw [if_neg h1]
      by_cases h2 : (adjacencyFn state n.name).any (fun nb => nb ∈ acc) = true
      · rw [if_pos h2]
        obtain ⟨adds, heq, hmem⟩ := ih (acc ++ [n.name])
        refine ⟨n.name :: adds, ?_, ?_⟩
        · rw [heq]
          simp
        · intro y hy
          rcases List.mem_cons.mp hy with rfl | hy'
          · exact ⟨⟨n, List.mem_cons_self _ _, rfl⟩, h1⟩
          · obtain ⟨⟨nd, hnd, hname⟩, hnotin⟩ := hmem y hy'
            exact ⟨⟨nd, List.mem_cons_of_mem n hnd, hname⟩,
              fun hyin => hnotin (List.mem_append_left _ hyin)⟩
      · rw [if_neg h2]
        obtain ⟨adds, heq, hmem⟩ := ih acc
        refine ⟨adds, heq, fun y hy => ?_⟩
        obtain ⟨⟨nd, hnd, hname⟩, hnotin⟩ := hmem y hy
        exact ⟨⟨nd, List.mem_cons_of_mem n hnd, hname⟩, hnotin⟩

theorem relaxStep_spec (state : ToolState) (g : List String) :
    ∃ adds, relaxStep state g = g ++ adds ∧
      ∀ y ∈ adds, (∃ nd ∈ state.nodes, nd.name = y) ∧ y ∉ g :=
  relaxFold_spec state state.nodes g

theorem relaxStep_subset (state : ToolState) (g : List String) :
    g ⊆ relaxStep state g := by
  obtain ⟨adds, heq, _⟩ := relaxStep_spec state g
  rw [heq]
  exact List.subset_append_left _ _

theorem relaxFold_closure (state : ToolState) :
    ∀ (l : List Node3D) (acc g : List String), g ⊆ acc →
      ∀ x ∈ l,
        x.name ∉ l.foldl
          (fun acc node =>
            if node.name ∈ acc then acc
            else if (adjacencyFn state node.name).any (fun nb => nb ∈ acc) then
              acc ++ [node.name]
            else acc) acc →
        ∀ nb ∈ adjacencyFn state x.name, nb ∉ g := by
  intro l
  induction l with
  | nil =>
    intro acc g _ x hx
    cases hx
  | cons n t ih =>
    intro acc g hga x hx hnotin nb hnb hnbg
    have hacc_sub : ∀ (acc' : List String),
        acc' ⊆ t.foldl
          (fun acc node =>
            if node.name ∈ acc then acc
            else if (adjacencyFn state node.name).any (fun nb => nb ∈ acc) then
              acc ++ [node.name]
            else acc) acc' := by
      intro acc'
      obtain ⟨adds, heq, _⟩ := relaxFold_spec state t acc'
      rw [heq]
      exact List.subset_append_left _ _
    simp only [List.foldl_cons] at hnotin
    rcases List.mem_cons.mp hx with rfl | hxt
    · by_cases h1 : x.name ∈ acc
      · rw [if_pos h1] at hnotin
        exact hnotin (hacc_sub acc h1)
      · by_cases h2 : (adjacencyFn state x.name).any (fun nb => nb ∈ acc) = true
        · rw [if_neg h1, if_pos h2] at hnotin
          exact hnotin (hacc_sub (acc ++ [x.name]) (List.mem_append_right _ (List.mem_singleton.mpr rfl)))
        · have : (adjacencyFn state x.name).any (fun nb => nb ∈ acc) = true :=
            List.any_eq_true.mpr ⟨nb, hnb, by simpa using hga hnbg⟩
          exact h2 this
    · by_cases h1 : n.name ∈ acc
      · rw [if_pos h1] at hnotin
        exact ih acc g hga x hxt hnotin nb hnb hnbg
      · by_cases h2 : (adjacencyFn state n.name).any (fun nb => nb ∈ acc) = true
        · rw [if_neg h1, if_pos h2] at hnotin
          exact ih (acc ++ [n.name]) g (hga.trans (List.subset_append_left _ _)) x hxt
            hnotin nb hnb hnbg
        · rw [if_neg h1, if_neg h2] at hnotin
          exact ih acc g hga x hxt hnotin nb hnb hnbg

theorem relaxStep_closure (state : ToolState) (g : List String)
    (hfix : relaxStep state g = g) :
    ∀ x ∈ state.nodes, x.name ∉ g → ∀ nb ∈ adjacencyFn state x.name, nb ∉ g := by
  intro x hx hxg nb hnb hnbg
  have hnot : x.name ∉ relaxStep state g := by rw [hfix]; exact hxg
  exact relaxFold_closure state state.nodes g g (fun a ha => ha) x hx hnot nb hnb hnbg

theorem relaxLoop_subset (state : ToolState) :
    ∀ (fuel : Nat) (g : List String), g ⊆ relaxLoop state fuel g := by
  intro fuel
  induction fuel with
  | zero => intro g; exact fun a ha => ha
  | succ f ih =>
    intro g
    simp only [relaxLoop]
    by_cases hfix : relaxStep state g = g
    · rw [if_pos hfix]
      exact fun a ha => ha
    · rw [if_neg hfix]
      exact (relaxStep_subset state g).trans (ih (relaxStep state g))

theorem relaxStep_count_lt (state : ToolState) (g : List String)
    (hne : relaxStep state g ≠ g) :
    (state.nodes.filter (fun n => n.name ∉ relaxStep state g)).length <
      (state.nodes.filter (fun n => n.name ∉ g)).length := by
  obtain ⟨adds, heq, hmem⟩ := relaxStep_spec state g
  have hadds : adds ≠ [] := by
    intro h
    rw [h, List.append_nil] at heq
    exact hne heq
  obtain ⟨y, hy⟩ := List.exists_mem_of_ne_nil adds hadds
  obtain ⟨⟨nd, hnd, hname⟩, hnoting⟩ := hmem y hy
  have hsub : List.Sublist (state.nodes.filter (fun n => n.name ∉ relaxStep state g))
      (state.nodes.filter (fun n => n.name ∉ g)) := by
    apply List.monotone_filter_right
    intro a ha
    simp only [decide_eq_true_eq] at ha ⊢
    intro hag
    exact ha (relaxStep_subset state g hag)
  have hin : nd ∈ state.nodes.filter (fun n => n.name ∉ g) :=
    List.mem_filter.mpr ⟨hnd, by simp [hname, hnoting]⟩
  have hnotin : nd ∉ state.nodes.filter (fun n => n.name ∉ relaxStep state g) := by
    intro hmem2
    have h2 := (List.mem_filter.mp hmem2).2
    simp only [decide_eq_true_eq] at h2
    apply h2
    rw [heq, hname]
    exact List.mem_append_right _ hy
  rcases Nat.lt_or_ge (state.nodes.filter (fun n => n.name ∉ relaxStep state g)).length
      (state.nodes.filter (fun n => n.name ∉ g)).length with h | h
  · exact h
  · exfalso
    have heqlen : (state.nodes.filter (fun n => n.name ∉ relaxStep state g)).length =
        (state.nodes.filter (fun n => n.name ∉ g)).length :=
      Nat.le_antisymm hsub.length_le h
    rw [hsub.eq_of_length heqlen] at hnotin
    exact hnotin hin

theorem relaxLoop_fixpoint (state : ToolState) :
    ∀ (fuel : Nat) (g : List String),
      (state.nodes.filter (fun n => n.name ∉ g)).length < fuel →
      relaxStep state (relaxLoop state fuel g) = relaxLoop state fuel g := by
  intro fuel
  induction fuel with
  | zero => intro g h; exact absurd h (Nat.not_lt_zero _)
  | succ f ih =>
    intro g hcount
    by_cases hfix : relaxStep state g = g
    · simp only [relaxLoop]
      rw [if_pos hfix]
      exact hfix
    · simp only [relaxLoop]
      rw [if_neg hfix]
      apply ih
      have hlt := relaxStep_count_lt state g hfix
      omega

theorem groundedFinal_fixpoint (state : ToolState) :
    relaxStep state (groundedFinal state) = groundedFinal state := by
  apply relaxLoop_fixpoint
  have hle := state.nodes.length_filter_le (fun n => decide (n.name ∉ dfsGrounded state))
  omega

/-- A name whose node record exists and lies at floor level. -/
def isFloorName (state : ToolState) (x : String) : Prop :=
  ∃ nd, findNode state x = some nd ∧ |nd.y - minYv state| < 1/10

theorem dfsVisit_mono (state : ToolState) :
    ∀ (fuel : Nat) (st : DfsSt) (name : String),
      st.visited ⊆ (dfsVisit state fuel st name).visited ∧
      st.grounded ⊆ (dfsVisit state fuel st name).grounded := by
  intro fuel
  induction fuel with
  | zero => intro st name; exact ⟨fun a ha => ha, fun a ha => ha⟩
  | succ f ih =>
    have hfold : ∀ (l : List String) (st : DfsSt),
        st.visited ⊆ (l.foldl (fun s nb => dfsVisit state f s nb) st).visited ∧
        st.grounded ⊆ (l.foldl (fun s nb => dfsVisit state f s nb) st).grounded := by
      intro l
      induction l with
      | nil => intro st; exact ⟨fun a ha => ha, fun a ha => ha⟩
      | cons nb t iht =>
        intro st
        simp only [List.foldl_cons]
        exact ⟨((ih st nb).1).trans (iht _).1, ((ih st nb).2).trans (iht _).2⟩
    intro st name
    simp only [dfsVisit]
    by_cases hv : name ∈ st.visited
    · rw [if_pos hv]
      exact ⟨fun a ha => ha, fun a ha => ha⟩
    · rw [if_neg hv]
      cases hfind : findNode state name with
      | none =>
        simp only [hfind]
        exact ⟨fun a ha => List.mem_cons_of_mem _ ha, fun a ha => ha⟩
      | some nd =>
        simp only [hfind]
        by_cases hfl : |nd.y - minYv state| < 1/10
        · rw [if_pos hfl]
          refine ⟨?_, ?_⟩
          · exact fun a ha => (hfold _ _).1 (List.mem_cons_of_mem _ ha)
          · exact fun a ha => (hfold _ _).2 (List.mem_cons_of_mem _ ha)
        · rw [if_neg hfl]
          refine ⟨?_, ?_⟩
          · exact fun a ha => (hfold _ _).1 (List.mem_cons_of_mem _ ha)
          · exact fun a ha => (hfold _ _).2 ha

theorem dfsFold_mono (state : ToolState) (fuel : Nat) :
    ∀ (l : List String) (st : DfsSt),
      st.visited ⊆ (l.foldl (fun s nb => dfsVisit state fuel s nb) st).visited ∧
      st.grounded ⊆ (l.foldl (fun s nb => dfsVisit state fuel s nb) st).grounded := by
  intro l
  induction l with
  | nil => intro st; exact ⟨fun a ha => ha, fun a ha => ha⟩
  | cons nb t iht =>
    intro st
    simp only [List.foldl_cons]
    exact ⟨((dfsVisit_mono state fuel st nb).1).trans (iht _).1,
      ((dfsVisit_mono state fuel st nb).2).trans (iht _).2⟩

theorem dfsVisit_inv (state : ToolState) :
    ∀ (fuel : Nat) (st : DfsSt) (name : String),
      (∀ x ∈ st.visited, isFloorName state x → x ∈ st.grounded) →
      ∀ x ∈ (dfsVisit state fuel st name).visited, isFloorName state x →
        x ∈ (dfsVisit state fuel st name).grounded := by
  intro fuel
  induction fuel with
  | zero => intro st name hinv; exact hinv
  | succ f ih =>
    have hfold : ∀ (l : List String) (st : DfsSt),
        (∀ x ∈ st.visited, isFloorName state x → x ∈ st.grounded) →
        ∀ x ∈ (l.foldl (fun s nb => dfsVisit state f s nb) st).visited,
          isFloorName state x →
          x ∈ (l.foldl (fun s nb => dfsVisit state f s nb) st).grounded := by
      intro l
      induction l with
      | nil => intro st hinv; exact hinv
      | cons nb t iht =>
        intro st hinv
        simp only [List.foldl_cons]
        exact iht _ (ih st nb hinv)
    intro st name hinv
    simp only [dfsVisit]
    by_cases hv : name ∈ st.visited
    · rw [if_pos hv]
      exact hinv
    · rw [if_neg hv]
      cases hfind : findNode state name with
      | none =>
        simp only [hfind]
        intro x hx hflx
        rcases List.mem_cons.mp hx with rfl | hx'
        · obtain ⟨nd, hnd, _⟩ := hflx
          rw [hfind] at hnd
          cases hnd
        · exact hinv x hx' hflx
      | some nd =>
        simp only [hfind]
        by_cases hfl : |nd.y - minYv state| < 1/10
        · rw [if_pos hfl]
          apply hfold
          intro x hx hflx
          rcases List.mem_cons.mp hx with rfl | hx'
          · exact List.mem_cons_self _ _
          · exact List.mem_cons_of_mem _ (hinv x hx' hflx)
        · rw [if_neg hfl]
          apply hfold
          intro x hx hflx
          rcases List.mem_cons.mp hx with rfl | hx'
          · obtain ⟨nd', hnd', hfl'⟩ := hflx
            rw [hfind] at hnd'
            cases hnd'
            exact absurd hfl' hfl
          · exact hinv x hx' hflx

theorem dfsVisit_visits (state : ToolState) (fuel : Nat) (st : DfsSt) (name : String)
    (hfuel : 1 ≤ fuel) :
    name ∈ (dfsVisit state fuel st name).visited := by
  cases fuel with
  | zero => omega
  | succ f =>
    simp only [dfsVisit]
    by_cases hv : name ∈ st.visited
    · rw [if_pos hv]
      exact hv
    · rw [if_neg hv]
      cases hfind : findNode state name with
      | none =>
        simp only [hfind]
        exact List.mem_cons_self _ _
      | some nd =>
        simp only [hfind]
        by_cases hfl : |nd.y - minYv state| < 1/10
        · rw [if_pos hfl]
          exact (dfsFold_mono state f _ _).1 (List.mem_cons_self _ _)
        · rw [if_neg hfl]
          exact (dfsFold_mono state f _ _).1 (List.mem_cons_self _ _)

theorem find?_name_of_nodup (l : List Node3D)
    (h1 : (l.map Node3D.name).Nodup) (nd : Node3D) (h : nd ∈ l) :
    l.find? (fun n => n.name = nd.name) = some nd := by
  induction l with
  | nil => cases h
  | cons n t ih =>
    rcases List.mem_cons.mp h with rfl | ht
    · exact List.find?_cons_of_pos _ (by simp)
    · have hne : ¬ (n.name = nd.name) := by
        intro heq
        have hnn : n.name ∉ t.map Node3D.name := (List.nodup_cons.mp h1).1
        exact hnn (heq ▸ List.mem_map_of_mem Node3D.name ht)
      rw [List.find?_cons_of_neg _ (by simpa using hne)]
      exact ih (List.nodup_cons.mp h1).2 ht

theorem floor_in_dfsGrounded (state : ToolState)
    (hnodup : (state.nodes.map Node3D.name).Nodup) :
    ∀ f ∈ floorNodes state, f.name ∈ dfsGrounded state := by
  have hfold_mono : ∀ (l : List Node3D) (st : DfsSt),
      st.visited ⊆ (l.foldl (fun st f => dfsVisit state (dfsFuel state) st f.name) st).visited := by
    intro l
    induction l with
    | nil => intro st; exact fun a ha => ha
    | cons g t iht =>
      intro st
      simp only [List.foldl_cons]
      exact ((dfsVisit_mono state (dfsFuel state) st g.name).1).trans (iht _)
  have hfold_visits : ∀ (l : List Node3D) (st : DfsSt), ∀ f ∈ l,
      f.name ∈ (l.foldl (fun st f => dfsVisit state (dfsFuel state) st f.name) st).visited := by
    intro l
    induction l with
    | nil => intro st f hf; cases hf
    | cons g t iht =>
      intro st f hf
      simp only [List.foldl_cons]
      rcases List.mem_cons.mp hf with rfl | hft
      · exact hfold_mono t _ (dfsVisit_visits state (dfsFuel state) st f.name (by
          simp only [dfsFuel]; omega))
      · exact iht _ f hft
  have hfold_inv : ∀ (l : List Node3D) (st : DfsSt),
      (∀ x ∈ st.visited, isFloorName state x → x ∈ st.grounded) →
      ∀ x ∈ (l.foldl (fun st f => dfsVisit state (dfsFuel state) st f.name) st).visited,
        isFloorName state x →
        x ∈ (l.foldl (fun st f => dfsVisit state (dfsFuel state) st f.name) st).grounded := by
    intro l
    induction l with
    | nil => intro st hinv; exact hinv
    | cons g t iht =>
      intro st hinv
      simp only [List.foldl_cons]
      exact iht _ (dfsVisit_inv state (dfsFuel state) st g.name hinv)
  intro f hf
  have hmem : f ∈ state.nodes := (List.mem_filter.mp hf).1
  have hcond : |f.y - minYv state| < 1/10 := by
    have := (List.mem_filter.mp hf).2
    simpa using this
  have hfl : isFloorName state f.name :=
    ⟨f, find?_name_of_nodup state.nodes hnodup f hmem, hcond⟩
  have hvis := hfold_visits (floorNodes state) ⟨[], []⟩ f hf
  have hinv := hfold_inv (floorNodes state) ⟨[], []⟩ (by intro x hx; cases hx)
  exact hinv f.name hvis hfl

theorem adjacency_symm (state : ToolState) (b c : String)
    (hb : c ∈ adjacencyFn state b)
    (hc : state.nodes.any (fun n => n.name = c) = true) :
    b ∈ adjacencyFn state c := by
  unfold adjacencyFn at hb ⊢
  rw [if_pos hc]
  by_cases hbn : state.nodes.any (fun n => n.name = b) = true
  · rw [if_pos hbn] at hb
    rcases List.mem_append.mp hb with h | h
    · obtain ⟨l, hl, hlc⟩ := List.mem_map.mp h
      have hl1 := List.mem_filter.mp hl
      have hl1' : l.node1 = b := by simpa using hl1.2
      apply List.mem_append.mpr
      right
      exact List.mem_map.mpr ⟨l, List.mem_filter.mpr ⟨hl1.1, by simp [hlc]⟩, hl1'⟩
    · obtain ⟨l, hl, hlc⟩ := List.mem_map.mp h
      have hl1 := List.mem_filter.mp hl
      have hl1' : l.node2 = b := by simpa using hl1.2
      apply List.mem_append.mpr
      left
      exact List.mem_map.mpr ⟨l, List.mem_filter.mpr ⟨hl1.1, by simp [hlc]⟩, hl1'⟩
  · rw [if_neg hbn] at hb
    cases hb

theorem reach_to_grounded (state : ToolState)
    (a x : String) (ha : a ∈ groundedFinal state)
    (hr : Relation.ReflTransGen (fun u v => v ∈ adjacencyFn state u) a x) :
    (∃ nd ∈ state.nodes, nd.name = x) → x ∈ groundedFinal state := by
  induction hr with
  | refl => exact fun _ => ha
  | @tail b c hab hbc ih =>
    rintro ⟨nd, hnd, hname⟩
    have hbany : state.nodes.any (fun n => n.name = b) = true := by
      by_contra hbn
      rw [adjacencyFn, if_neg hbn] at hbc
      exact absurd hbc (List.not_mem_nil c)
    obtain ⟨bnd, hbnd, hbname⟩ := by
      have := List.any_eq_true.mp hbany
      exact this
    have hbname' : bnd.name = b := by simpa using hbname
    have hb_in : b ∈ groundedFinal state := ih ⟨bnd, hbnd, hbname'⟩
    have hcany : state.nodes.any (fun n => n.name = c) = true :=
      List.any_eq_true.mpr ⟨nd, hnd, by simp [hname]⟩
    have hsym : b ∈ adjacencyFn state c := adjacency_symm state b c hbc hcany
    by_contra hcnot
    have hclos := relaxStep_closure state (groundedFinal state)
      (groundedFinal_fixpoint state) nd hnd (by rwa [hname])
    exact hclos b (hname ▸ hsym) hb_in

/-- Claim C2: for every structure with unique node names in which every node
is reachable from some floor-tier node through the line-adjacency graph,
the validator's grounding analysis reports zero floating ("no structural
path to ground") issues, regardless of how many lines the structure has. -/
theorem claim_C2 (state : ToolState)
    (hnodup : (state.nodes.map Node3D.name).Nodup)
    (hreach : ∀ n ∈ state.nodes, ∃ f ∈ floorNodes state,
      Relation.ReflTransGen (fun u v => v ∈ adjacencyFn state u) f.name n.name) :
    step4Errors state = [] := by
  have hfloat : floatingNodes state = [] := by
    rw [floatingNodes, List.filter_eq_nil_iff]
    intro n hn
    simp only [decide_eq_true_eq, Decidable.not_not]
    obtain ⟨f, hf, hr⟩ := hreach n hn
    have hfg : f.name ∈ groundedFinal state :=
      relaxLoop_subset state _ _ (floor_in_dfsGrounded state hnodup f hf)
    exact reach_to_grounded state f.name n.name hfg hr ⟨n, hn, rfl⟩
  simp [step4Errors, hfloat]

/-- Witness for C2: the structure `A(0,0,0) — B(0,1,0)` with line `A–B`:
the floor node `A` reaches both nodes, and the validator reports no
floating issue. -/
theorem claim_C2_witness :
    step4Errors ⟨[⟨"A", 0, 0, 0⟩, ⟨"B", 0, 1, 0⟩], [⟨"L1", "A", "B"⟩]⟩ = [] := by
  apply claim_C2
  · have hmap : ((ToolState.mk [⟨"A", 0, 0, 0⟩, ⟨"B", 0, 1, 0⟩]
        [⟨"L1", "A", "B"⟩]).nodes.map Node3D.name) = ["A", "B"] := by
      with_unfolding_all rfl
    rw [hmap]
    decide
  · intro n hn
    have hfloor : floorNodes ⟨[⟨"A", 0, 0, 0⟩, ⟨"B", 0, 1, 0⟩], [⟨"L1", "A", "B"⟩]⟩ =
        [⟨"A", 0, 0, 0⟩] := by
      with_unfolding_all rfl
    have hadj : adjacencyFn ⟨[⟨"A", 0, 0, 0⟩, ⟨"B", 0, 1, 0⟩], [⟨"L1", "A", "B"⟩]⟩ "A" =
        ["B"] := by
      with_unfolding_all rfl
    rcases List.mem_cons.mp hn with rfl | hn'
    · exact ⟨⟨"A", 0, 0, 0⟩, by rw [hfloor]; exact List.mem_singleton.mpr rfl,
        Relation.ReflTransGen.refl⟩
    · rcases List.mem_cons.mp hn' with rfl | hn''
      · refine ⟨⟨"A", 0, 0, 0⟩, by rw [hfloor]; exact List.mem_singleton.mpr rfl,
          Relation.ReflTransGen.single ?_⟩
        rw [hadj]
        exact List.mem_singleton.mpr rfl
      · cases hn''

/-- Witness for C5 (amended): on the one-node map `{"N2"}` the generated
name is fresh, and the skipped index 2 (at `size + 1`) is indeed taken. -/
theorem claim_C5_witness :
    (generateNodeName [("N2", Node3D.mk "N2" 0 0 0)] ∉
      JMap.keys [("N2", Node3D.mk "N2" 0 0 0)]) ∧
    mkName "N" 2 ∈ JMap.keys [("N2", Node3D.mk "N2" 0 0 0)] := by
  refine ⟨(claim_C5_amended.1 [("N2", Node3D.mk "N2" 0 0 0)]).1, ?_⟩
  obtain ⟨k, hk, hge, hleast⟩ := (claim_C5_amended.1 [("N2", Node3D.mk "N2" 0 0 0)]).2
  have hval : generateNodeName [("N2", Node3D.mk "N2" 0 0 0)] = mkName "N" 3 := by
    with_unfolding_all rfl
  have hk3 : k = 3 := mkName_injective "N" (hval ▸ hk).symm
  subst hk3
  exact hleast 2 (by with_unfolding_all rfl) (by omega)
